import Mathlib

/-!
# dns-made-easy-updater: a verification development

A shallow embedding of `main.go`, the dynamic-DNS update client, and theorems
about it.

* `GoNet` and `GoStrings` transcribe the functions of the Go standard library
  that the program calls: `net.IP.String`, `net.IP.Equal`, `net.IP.To4`,
  `net.ParseIP` with `parseIPv4`, `parseIPv6`, `dtoi`, `xtoi`, `uitoa`,
  `appendHex` (files `net/ip.go` and `net/parse.go` of the Go releases of the
  time of the program), and `strings.TrimSpace`.  Loops are recursive functions
  with a bound on the number of rounds that the Go loop cannot exceed; the
  scanners consume the remaining text where the Go code advances an index.
* `Updater` embeds the program: `Config.validate` and `parseConfig`, the
  reconciliation cycle `run` with `getPublicIP`, `getSavedIP`, `updateDDNS` and
  `saveIP` over an explicit file system, network and trace of effects, and the
  lifecycle of `main` (main goroutine, signal handler goroutine, signals) as a
  transition system.

Go strings are Lean strings, bytes are natural numbers below 256,
`time.Duration` is an integer number of nanoseconds, a `nil` slice is the empty
list, and a Go `error` is its message.
-/

namespace GoNet

/-! ## Package `net`: addresses -/

/-- An IP address is a slice of bytes (`type IP []byte`); `nil` is `[]`. -/
abbrev IP := List Nat

/-- The constant `net.IPv4len`. -/
def IPv4len : Nat := 4

/-- The constant `net.IPv6len`. -/
def IPv6len : Nat := 16

/-- The variable `v4InV6Prefix` of `net/ip.go`. -/
def v4InV6Prefix : List Nat := [0, 0, 0, 0, 0, 0, 0, 0, 0, 0, 0xff, 0xff]

/-- The function `net.IPv4`: the 16-byte form of the IPv4 address `a.b.c.d`. -/
def IPv4 (a b c d : Nat) : IP :=
  ((((v4InV6Prefix ++ [0, 0, 0, 0]).set 12 a).set 13 b).set 14 c).set 15 d

/-- The helper `isZeros` of `net/ip.go`. -/
def isZeros (p : List Nat) : Bool :=
  p.all (fun b => b == 0)

/-- The method `IP.To4`: the 4-byte form of an IPv4 address, `nil` otherwise. -/
def IP.To4 (ip : IP) : IP :=
  if ip.length = IPv4len then ip
  else if ip.length = IPv6len ∧ isZeros (ip.take 10) = true ∧
      ip.getD 10 0 = 0xff ∧ ip.getD 11 0 = 0xff then (ip.drop 12).take 4
  else []

/-- The method `IP.Equal`: address equality, an IPv4 address and its
IPv4-mapped IPv6 form being equal. -/
def IP.Equal (ip x : IP) : Bool :=
  if ip.length = x.length then decide (ip = x)
  else if ip.length = IPv4len ∧ x.length = IPv6len then
    decide (x.take 12 = v4InV6Prefix) && decide (ip = x.drop 12)
  else if ip.length = IPv6len ∧ x.length = IPv4len then
    decide (ip.take 12 = v4InV6Prefix) && decide (ip.drop 12 = x)
  else false

/-! ## Package `net`: printing -/

/-- The loop of `uitoa`: peel decimal digits off `val`, least significant first,
writing them leftwards into the buffer (`fuel` is the buffer size). -/
def uitoaLoop : Nat → Nat → List Char → List Char
  | 0, _, buf => buf
  | fuel + 1, val, buf =>
    if val ≥ 10 then
      let q := val / 10
      uitoaLoop fuel q (Char.ofNat ('0'.toNat + val - q * 10) :: buf)
    else Char.ofNat ('0'.toNat + val) :: buf

/-- The function `uitoa` of `net/parse.go`: decimal text of an unsigned integer. -/
def uitoa (val : Nat) : List Char :=
  if val = 0 then ['0'] else uitoaLoop 20 val []

/-- The constant `hexDigit` of `net/ip.go`. -/
def hexDigit : List Char := "0123456789abcdef".data

/-- The loop of `appendHex`, `j` running from `k - 1` down to `0`. -/
def appendHexLoop (i : Nat) : Nat → List Char → List Char
  | 0, dst => dst
  | k + 1, dst =>
    let v := i >>> (k * 4)
    appendHexLoop i k (if v > 0 then dst ++ [hexDigit.getD (v &&& 0xf) '0'] else dst)

/-- The function `appendHex` of `net/ip.go`: hexadecimal text without leading
zeros, appended to `dst`. -/
def appendHex (dst : List Char) (i : Nat) : List Char :=
  if i = 0 then dst ++ ['0'] else appendHexLoop i 8 dst

/-- The inner loop of `IP.String`: the end of the run of zero groups that
starts at byte `j`. -/
def zeroRunEnd (p : IP) : Nat → Nat → Nat
  | 0, j => j
  | fuel + 1, j =>
    if j < IPv6len ∧ p.getD j 0 = 0 ∧ p.getD (j + 1) 0 = 0 then zeroRunEnd p fuel (j + 2)
    else j

/-- The outer loop of `IP.String` that finds the longest run of zero groups;
`e0`, `e1` delimit the best run found so far (`-1` when none). -/
def longestZeroRun (p : IP) : Nat → Nat → Int → Int → Int × Int
  | 0, _, e0, e1 => (e0, e1)
  | fuel + 1, i, e0, e1 =>
    if i < IPv6len then
      let j := zeroRunEnd p 8 i
      if j > i ∧ (j : Int) - (i : Int) > e1 - e0 then
        longestZeroRun p fuel (j + 2) (i : Int) (j : Int)
      else longestZeroRun p fuel (i + 2) e0 e1
    else (e0, e1)

/-- The printing loop of `IP.String`: groups in hexadecimal separated by `:`,
the run `[e0, e1)` replaced by `::`. -/
def printGroups (p : IP) (e0 e1 : Int) : Nat → Nat → List Char → List Char
  | 0, _, b => b
  | fuel + 1, i, b =>
    if i < IPv6len then
      if (i : Int) = e0 then
        let b := b ++ [':', ':']
        let i := e1.toNat
        if i ≥ IPv6len then b
        else
          printGroups p e0 e1 fuel (i + 2)
            (appendHex b ((p.getD i 0 <<< 8) ||| p.getD (i + 1) 0))
      else
        let b := if i > 0 then b ++ [':'] else b
        printGroups p e0 e1 fuel (i + 2)
          (appendHex b ((p.getD i 0 <<< 8) ||| p.getD (i + 1) 0))
    else b

/-- The run `(e0, e1)` that `IP.String` abbreviates: the longest run of zero
groups, unless it is a single group (`::` must not shorten just one field). -/
def zeroRun (p : IP) : Int × Int :=
  let e := longestZeroRun p 8 0 (-1) (-1)
  if e.2 - e.1 ≤ 2 then (-1, -1) else e

/-- The characters of `IP.String`. -/
def IP.chars (ip : IP) : List Char :=
  if ip.length = 0 then ['<', 'n', 'i', 'l', '>']
  else
    let p4 := IP.To4 ip
    if p4.length = IPv4len then
      uitoa (p4.getD 0 0) ++ ['.'] ++ uitoa (p4.getD 1 0) ++ ['.'] ++
        uitoa (p4.getD 2 0) ++ ['.'] ++ uitoa (p4.getD 3 0)
    else if ip.length ≠ IPv6len then ['?']
    else printGroups ip (zeroRun ip).1 (zeroRun ip).2 8 0 []

/-- The method `IP.String`: dotted decimal for IPv4 (and IPv4-mapped)
addresses, RFC 5952 text for IPv6, `<nil>` for the absent address. -/
def IP.String (ip : IP) : String := ⟨IP.chars ip⟩

/-! ## Package `net`: parsing -/

/-- The constant `big` of `net/parse.go`. -/
def big : Nat := 0xFFFFFF

/-- The loop of `dtoi`: `n` is the value read so far, `i` the number of bytes
consumed. -/
def dtoiLoop : List Char → Nat → Nat → Nat × Nat × Bool
  | [], n, i => if i = 0 then (0, 0, false) else (n, i, true)
  | c :: cs, n, i =>
    if '0' ≤ c ∧ c ≤ '9' then
      let n := n * 10 + (c.toNat - '0'.toNat)
      if n ≥ big then (big, i, false) else dtoiLoop cs n (i + 1)
    else if i = 0 then (0, 0, false) else (n, i, true)

/-- The function `dtoi`: decimal to integer; returns number, characters
consumed, success. -/
def dtoi (s : List Char) : Nat × Nat × Bool := dtoiLoop s 0 0

/-- The loop of `xtoi`. -/
def xtoiLoop : List Char → Nat → Nat → Nat × Nat × Bool
  | [], n, i => if i = 0 then (0, i, false) else (n, i, true)
  | c :: cs, n, i =>
    if '0' ≤ c ∧ c ≤ '9' then
      let n := n * 16 + (c.toNat - '0'.toNat)
      if n ≥ big then (0, i, false) else xtoiLoop cs n (i + 1)
    else if 'a' ≤ c ∧ c ≤ 'f' then
      let n := n * 16 + (c.toNat - 'a'.toNat) + 10
      if n ≥ big then (0, i, false) else xtoiLoop cs n (i + 1)
    else if 'A' ≤ c ∧ c ≤ 'F' then
      let n := n * 16 + (c.toNat - 'A'.toNat) + 10
      if n ≥ big then (0, i, false) else xtoiLoop cs n (i + 1)
    else if i = 0 then (0, i, false) else (n, i, true)

/-- The function `xtoi`: hexadecimal to integer; returns number, characters
consumed, success. -/
def xtoi (s : List Char) : Nat × Nat × Bool := xtoiLoop s 0 0

/-- The loop of `parseIPv4` over the four octets; `none` is `return nil`. -/
def parseIPv4Loop : Nat → Nat → List Char → List Nat → Option (List Nat × List Char)
  | 0, _, s, p => some (p, s)
  | k + 1, i, s, p =>
    if s.length = 0 then none
    else if i > 0 ∧ s.head? ≠ some '.' then none
    else
      let s := if i > 0 then s.drop 1 else s
      match dtoi s with
      | (n, c, ok) =>
        if !ok || n > 0xFF then none
        else parseIPv4Loop k (i + 1) (s.drop c) (p.set i (n % 256))

/-- The function `parseIPv4`: parse `d.d.d.d` into a 16-byte address, `nil`
when the text is not of that form. -/
def parseIPv4 (s : List Char) : IP :=
  match parseIPv4Loop IPv4len 0 s [0, 0, 0, 0] with
  | none => []
  | some (p, s) =>
    if s.length ≠ 0 then []
    else IPv4 (p.getD 0 0) (p.getD 1 0) (p.getD 2 0) (p.getD 3 0)

/-- The local variables of the main loop of `parseIPv6`. -/
structure V6State where
  /-- The address being filled in. -/
  ip : List Nat
  /-- Position of the ellipsis in `ip`, `-1` when there is none. -/
  ellipsis : Int
  /-- The text that remains to be read. -/
  s : List Char
  /-- Index of the next byte of `ip` to write. -/
  i : Nat
deriving DecidableEq, Repr

/-- The main loop of `parseIPv6`, parsing hex numbers followed by colons;
`none` is `return nil`, `some st` is the state on leaving the loop. -/
def parseIPv6Loop : Nat → V6State → Option V6State
  | 0, st => some st
  | fuel + 1, st =>
    if st.i < IPv6len then
      match xtoi st.s with
      | (n, c, ok) =>
        if !ok || n > 0xFFFF then none
        else if c < st.s.length ∧ st.s.getD c ' ' = '.' then
          -- followed by a dot: trailing IPv4
          if st.ellipsis < 0 ∧ st.i ≠ IPv6len - IPv4len then none
          else if st.i + IPv4len > IPv6len then none
          else
            let ip4 := parseIPv4 st.s
            if ip4.length = 0 then none
            else
              some ⟨(((st.ip.set st.i (ip4.getD 12 0)).set (st.i + 1) (ip4.getD 13 0)).set
                (st.i + 2) (ip4.getD 14 0)).set (st.i + 3) (ip4.getD 15 0),
                st.ellipsis, [], st.i + IPv4len⟩
        else
          -- save this 16-bit chunk
          let ip := (st.ip.set st.i ((n >>> 8) % 256)).set (st.i + 1) (n % 256)
          let i := st.i + 2
          let s := st.s.drop c
          if s.length = 0 then some ⟨ip, st.ellipsis, s, i⟩
          else if s.head? ≠ some ':' ∨ s.length = 1 then none
          else
            let s := s.drop 1
            if s.head? = some ':' then
              if st.ellipsis ≥ 0 then none
              else
                let s := s.drop 1
                if s.length = 0 then some ⟨ip, (i : Int), s, i⟩
                else parseIPv6Loop fuel ⟨ip, (i : Int), s, i⟩
            else parseIPv6Loop fuel ⟨ip, st.ellipsis, s, i⟩
    else some st

/-- The ellipsis expansion of `parseIPv6`: move the `i - ellipsis` bytes after
the ellipsis to the end (`j` descending), then zero the gap (`j` descending). -/
def expandEllipsis (ip : List Nat) (ellipsis i : Nat) : List Nat :=
  let n := IPv6len - i
  let ip := ((List.range' ellipsis (i - ellipsis)).reverse).foldl
    (fun ip j => ip.set (j + n) (ip.getD j 0)) ip
  ((List.range' ellipsis n).reverse).foldl (fun ip j => ip.set j 0) ip

/-- The function `parseIPv6` without zone: parse an IPv6 literal per RFC 4291
into 16 bytes, `nil` when the text is not one. -/
def parseIPv6 (s : List Char) : IP :=
  let ip0 : List Nat := List.replicate IPv6len 0
  -- might have a leading ellipsis
  let lead : Bool := decide (s.length ≥ 2 ∧ s.getD 0 ' ' = ':' ∧ s.getD 1 ' ' = ':')
  let ellipsis : Int := if lead then 0 else -1
  let s := if lead then s.drop 2 else s
  if lead ∧ s.length = 0 then ip0
  else
    match parseIPv6Loop 8 ⟨ip0, ellipsis, s, 0⟩ with
    | none => []
    | some st =>
      -- must have used the entire string
      if st.s.length ≠ 0 then []
      else if st.i < IPv6len then
        if st.ellipsis < 0 then []
        else expandEllipsis st.ip st.ellipsis.toNat st.i
      else if st.ellipsis ≥ 0 then []
      else st.ip

/-- The scan of `ParseIP` for the first `.` or `:` of `s`. -/
def parseIPScan (s : List Char) : List Char → IP
  | [] => []
  | c :: cs =>
    if c = '.' then parseIPv4 s
    else if c = ':' then parseIPv6 s
    else parseIPScan s cs

/-- The function `net.ParseIP`: an IPv4 dotted decimal or IPv6 literal parsed
to its 16-byte form, `nil` for any other text. -/
def ParseIP (s : String) : IP := parseIPScan s.data s.data

end GoNet

namespace GoStrings

/-- The predicate `unicode.IsSpace`: the Unicode White Space property. -/
def isSpace (c : Char) : Bool :=
  c = '\t' ∨ c = '\n' ∨ c.toNat = 0x0B ∨ c.toNat = 0x0C ∨ c = '\r' ∨ c = ' ' ∨
  c.toNat = 0x85 ∨ c.toNat = 0xA0 ∨ c.toNat = 0x1680 ∨
  (0x2000 ≤ c.toNat ∧ c.toNat ≤ 0x200A) ∨ c.toNat = 0x2028 ∨ c.toNat = 0x2029 ∨
  c.toNat = 0x202F ∨ c.toNat = 0x205F ∨ c.toNat = 0x3000

/-- The function `strings.TrimSpace`: drop leading and trailing white space. -/
def TrimSpace (s : String) : String :=
  ⟨((s.data.dropWhile isSpace).reverse.dropWhile isSpace).reverse⟩

end GoStrings

namespace Updater

open GoNet GoStrings

/-! ## The program: configuration -/

/-- A Go `error` value: its message, and whether `os.IsNotExist` holds of it. -/
structure GoError where
  /-- The text of `Error()`. -/
  msg : String
  /-- Whether `os.IsNotExist` reports true. -/
  notExist : Bool
deriving DecidableEq, Repr

/-- The constant `ipURL`. -/
def ipURL : String := "http://myip.dnsmadeeasy.com/"

/-- The constant `updateURL`. -/
def updateURL : String := "https://cp.dnsmadeeasy.com/servlet/updateip?"

/-- The constant `time.Second`, in nanoseconds. -/
def second : Int := 1000000000

/-- The struct `Config`. -/
structure Config where
  /-- Interval between cycles (`time.Duration`, nanoseconds); 0 means run once. -/
  Interval : Int
  /-- Username for updating the DNS record. -/
  Username : String
  /-- Password for updating the DNS record. -/
  Password : String
  /-- ID number of the DDNS record. -/
  RecordID : String
  /-- File holding the last published IP address. -/
  CurrentIPFile : String
deriving DecidableEq, Repr

/-- The method `multierror.Errors.Err`: `nil` when the list is empty, the
collected errors otherwise. -/
def errorsErr (errs : List GoError) : Option (List GoError) :=
  if errs.length = 0 then none else some errs

/-- The slice `errs` that `Config.validate` builds: one error per empty field. -/
def Config.validateErrs (c : Config) : List GoError :=
  let errs : List GoError := []
  let errs := if c.Username = "" then errs ++ [⟨"username is required", false⟩] else errs
  let errs := if c.Password = "" then errs ++ [⟨"password is required", false⟩] else errs
  let errs := if c.RecordID = "" then errs ++ [⟨"record-id is required", false⟩] else errs
  let errs :=
    if c.CurrentIPFile = "" then errs ++ [⟨"current-ip-file is required", false⟩] else errs
  errs

/-- The method `Config.validate`. -/
def Config.validate (c : Config) : Option (List GoError) :=
  errorsErr c.validateErrs

/-- The command line flags read by `parseConfig`. -/
structure Flags where
  /-- Flag `-interval`. -/
  interval : String
  /-- Flag `-username`. -/
  username : String
  /-- Flag `-password`. -/
  password : String
  /-- Flag `-record-id`. -/
  recordID : String
  /-- Flag `-current-ip-file`. -/
  currentIPFile : String
  /-- Flag `-config`. -/
  configFile : String
deriving DecidableEq, Repr

/-- The library calls of `parseConfig`, taken as parameters: reading the
configuration file, `yaml.Unmarshal` (which updates the record in place and may
fail) and `time.ParseDuration`. -/
structure ConfigEnv where
  /-- The result of `ioutil.ReadFile` per path. -/
  readFile : String → Except GoError String
  /-- The effect of `yaml.Unmarshal(content, &c)`. -/
  yamlUnmarshal : String → Config → Config × Option GoError
  /-- The result of `time.ParseDuration` (with an error it returns the zero
  duration). -/
  parseDuration : String → Except GoError Int

/-- The error returned by `parseConfig`: a single error, or the list collected
by `validate`. -/
inductive ConfigError
  | single (err : GoError)
  | multi (errs : List GoError)
deriving DecidableEq, Repr

/-- How a call of `parseConfig` ends: `log.Fatalf` kills the process, or the
function returns a configuration and an optional error. -/
inductive ParseOutcome
  | fatal (interval : Int)
  | returned (c : Config) (err : Option ConfigError)
deriving DecidableEq, Repr

/-- The second half of `parseConfig`: validate the interval, apply the flag
overrides, validate the record. -/
def parseConfigFinish (f : Flags) (c : Config) : ParseOutcome :=
  if c.Interval ≠ 0 ∧ c.Interval < 10 * second then .fatal c.Interval
  else
    let c := if f.username ≠ "" then { c with Username := f.username } else c
    let c := if f.password ≠ "" then { c with Password := f.password } else c
    let c := if f.recordID ≠ "" then { c with RecordID := f.recordID } else c
    let c := if f.currentIPFile ≠ "" then { c with CurrentIPFile := f.currentIPFile } else c
    .returned c (c.validate.map ConfigError.multi)

/-- The middle of `parseConfig`: the `-interval` flag overrides the file. -/
def parseConfigInterval (env : ConfigEnv) (f : Flags) (c : Config) : ParseOutcome :=
  if f.interval ≠ "" then
    match env.parseDuration f.interval with
    | .error err =>
      -- the assignment `c.Interval, err = ...` has stored the zero duration returned
      .returned { c with Interval := 0 }
        (some (.single ⟨"invalid interval \x27" ++ f.interval ++ "\x27. " ++ err.msg, false⟩))
    | .ok d => parseConfigFinish f { c with Interval := d }
  else parseConfigFinish f c

/-- The function `parseConfig`. -/
def parseConfig (env : ConfigEnv) (f : Flags) : ParseOutcome :=
  let c : Config := ⟨0, "", "", "", ""⟩
  if f.configFile ≠ "" then
    match env.readFile f.configFile with
    | .error err => .returned c (some (.single err))
    | .ok content =>
      match env.yamlUnmarshal content c with
      | (c, some err) => .returned c (some (.single err))
      | (c, none) => parseConfigInterval env f c
  else parseConfigInterval env f c

/-- The head of `main`: the configuration with which the lifecycle loop is
entered, `none` when the process exits before (`log.Fatalf` or `os.Exit(1)`). -/
def mainConfig (env : ConfigEnv) (f : Flags) : Option Config :=
  match parseConfig env f with
  | .fatal _ => none
  | .returned _ (some _) => none
  | .returned c none => some c

/-! ## The program: one reconciliation cycle -/

/-- What a file path holds. -/
inductive FileState
  | missing
  | unreadable (err : GoError)
  | content (data : String)
deriving DecidableEq, Repr

/-- An observable effect of the cycle. -/
inductive Effect
  | get (url : String)
  | write (path : String) (data : String) (perm : Nat)
deriving DecidableEq, Repr

/-- The mutable world of a cycle: the file system and the effects so far. -/
structure Sys where
  /-- The file system, per path. -/
  fs : String → FileState
  /-- The requests and writes issued so far, oldest first. -/
  trace : List Effect

/-- What the network answers to `client.Get(url)` followed by
`ioutil.ReadAll(resp.Body)`. -/
inductive HTTPResult
  | getFailed (err : GoError)
  | readFailed (err : GoError)
  | body (b : String)
deriving DecidableEq, Repr

/-- The environment of a cycle: the answer of the network to each URL, and for
each path whether writing it fails (with which error, leaving what behind). -/
structure World where
  /-- The answer to a GET of the URL. -/
  httpGet : String → HTTPResult
  /-- The failure of `ioutil.WriteFile` on the path, if any. -/
  writeFault : String → Option (GoError × FileState)

/-- The function `ioutil.ReadFile`. -/
def readFile (st : Sys) (path : String) : Except GoError String :=
  match st.fs path with
  | .missing => .error ⟨"open " ++ path ++ ": no such file or directory", true⟩
  | .unreadable err => .error err
  | .content data => .ok data

/-- The function `ioutil.WriteFile`: replace the content of the file. -/
def writeFile (w : World) (path data : String) (perm : Nat) (st : Sys) :
    Option GoError × Sys :=
  let trace := st.trace ++ [Effect.write path data perm]
  match w.writeFault path with
  | some (err, left) => (some err, ⟨fun p => if p = path then left else st.fs p, trace⟩)
  | none => (none, ⟨fun p => if p = path then .content data else st.fs p, trace⟩)

/-- The call `client.Get(url)` with the body read in full. -/
def httpGet (w : World) (url : String) (st : Sys) : HTTPResult × Sys :=
  (w.httpGet url, ⟨st.fs, st.trace ++ [Effect.get url]⟩)

/-- The function `getSavedIP`. -/
def getSavedIP (st : Sys) (currentIPFile : String) : Except GoError IP :=
  match readFile st currentIPFile with
  | .error err => if !err.notExist then .error err else .ok (ParseIP (TrimSpace ""))
  | .ok content => .ok (ParseIP (TrimSpace content))

/-- The function `saveIP`. -/
def saveIP (w : World) (c : Config) (ip : IP) (st : Sys) : Option GoError × Sys :=
  writeFile w c.CurrentIPFile (IP.String ip ++ "\n") 0o600 st

/-- The function `getPublicIP`. -/
def getPublicIP (w : World) (st : Sys) : Except GoError IP × Sys :=
  match httpGet w ipURL st with
  | (.getFailed err, st) => (.error err, st)
  | (.readFailed err, st) => (.error err, st)
  | (.body body, st) => (.ok (ParseIP (TrimSpace body)), st)

/-- The string `updateQuery` that `updateDDNS` builds with `fmt.Sprintf`. -/
def updateQuery (c : Config) (ip : IP) : String :=
  updateURL ++ "?username=" ++ c.Username ++ "&password=" ++ c.Password ++ "&id=" ++
    c.RecordID ++ "&ip=" ++ IP.String ip

/-- The function `updateDDNS`. -/
def updateDDNS (w : World) (c : Config) (ip : IP) (st : Sys) : Option GoError × Sys :=
  match httpGet w (updateQuery c ip) st with
  | (.getFailed err, st) => (some err, st)
  | (.readFailed err, st) => (some err, st)
  | (.body response, st) =>
    if response = "success" then (none, st)
    else (some ⟨"failed to update DDNS record: " ++ response, false⟩, st)

/-- The function `run`: one reconciliation cycle. -/
def run (w : World) (c : Config) (st : Sys) : Option GoError × Sys :=
  match getPublicIP w st with
  | (.error err, st) => (some err, st)
  | (.ok ip, st) =>
    match getSavedIP st c.CurrentIPFile with
    | .error err => (some err, st)
    | .ok savedIP =>
      if !IP.Equal ip savedIP then
        match updateDDNS w c ip st with
        | (some err, st) => (some err, st)
        | (none, st) =>
          match saveIP w c ip st with
          | (some err, st) => (some ⟨"failed to save IP to disk. " ++ err.msg, false⟩, st)
          | (none, st) => (none, st)
      else (none, st)

/-! ## The program: the lifecycle of `main`

The main goroutine, the signal-handling goroutine and the environment
(interrupt signals, the ticker) are interleaved one atomic action at a time. -/

/-- Where the main goroutine stands. -/
inductive PC
  /-- Before `done := make(chan struct{})`. -/
  | start
  /-- At the top of the `for` loop, about to call `run`. -/
  | loop
  /-- Inside `run(config)`. -/
  | running
  /-- Blocked in the `select`. -/
  | waiting
  /-- After `return` from `main`: clean exit. -/
  | returned
  /-- After `log.Fatal(err)`: the process has exited with failure. -/
  | fatal
deriving DecidableEq, Repr

/-- The state of the process during the lifecycle of `main`. -/
structure Proc where
  /-- Position of the main goroutine. -/
  pc : PC
  /-- Whether the channel `tick` is nil. -/
  tickNil : Bool
  /-- Whether the channel `done` is closed. -/
  doneClosed : Bool
  /-- Number of signals waiting in the channel `c` (capacity 1). -/
  sigBuf : Nat
  /-- Whether `once.Do` has already run its function. -/
  onceDone : Bool
  /-- Number of calls of `run` so far. -/
  runs : Nat
  /-- Number of executions of `close(done)` so far. -/
  closes : Nat
  /-- Whether the process died of `panic: close of closed channel`. -/
  panicked : Bool
deriving DecidableEq, Repr

/-- The atomic actions of the process and of its environment. -/
inductive Action
  /-- Main: create `done`, start the ticker or close `done`, install the
  signal handler goroutine. -/
  | setup
  /-- Main: call `run(config)`. -/
  | callRun
  /-- Main: `run` returns `nil` (`true`) or an error (`false`). -/
  | runReturns (ok : Bool)
  /-- Main: the `select` takes `case <-tick`. -/
  | tick
  /-- Main: the `select` takes `case <-done` and returns. -/
  | done
  /-- Environment: an interrupt signal is delivered to the channel `c`
  (dropped when the buffer is full). -/
  | signal
  /-- Handler goroutine: receive one signal from `c` and run `once.Do`. -/
  | handle
deriving DecidableEq, Repr

/-- The statement `close(done)`: closing a closed channel panics. -/
def closeDone (s : Proc) : Proc :=
  if s.doneClosed then { s with closes := s.closes + 1, panicked := true }
  else { s with closes := s.closes + 1, doneClosed := true }

/-- The state at the entry of the lifecycle part of `main`. -/
def Proc.init : Proc := ⟨.start, true, false, 0, false, 0, 0, false⟩

/-- Whether the process is still running. -/
def Proc.alive (s : Proc) : Bool :=
  !s.panicked && s.pc != .returned && s.pc != .fatal

/-- One atomic action from state `s`, `none` when the action is not enabled. -/
def step (interval : Int) (s : Proc) (a : Action) : Option Proc :=
  if !s.alive then none
  else
    match a with
    | .setup =>
      if s.pc = .start then
        if interval > 0 then some { s with pc := .loop, tickNil := false }
        else some { closeDone s with pc := .loop }
      else none
    | .callRun =>
      if s.pc = .loop then some { s with pc := .running, runs := s.runs + 1 } else none
    | .runReturns ok =>
      if s.pc = .running then some { s with pc := if ok then .waiting else .fatal } else none
    | .tick =>
      if s.pc = .waiting ∧ s.tickNil = false then some { s with pc := .loop } else none
    | .done =>
      if s.pc = .waiting ∧ s.doneClosed = true then some { s with pc := .returned } else none
    | .signal =>
      if s.pc ≠ .start then some { s with sigBuf := if s.sigBuf < 1 then s.sigBuf + 1 else s.sigBuf }
      else none
    | .handle =>
      if s.pc ≠ .start ∧ s.sigBuf > 0 then
        let s := { s with sigBuf := s.sigBuf - 1 }
        if s.onceDone then some s
        else some (closeDone { s with onceDone := true })
      else none

/-- Run a schedule of actions from `s`; `none` when some action is not enabled. -/
def exec (interval : Int) (s : Proc) : List Action → Option Proc
  | [] => some s
  | a :: as =>
    match step interval s a with
    | none => none
    | some s => exec interval s as

end Updater

namespace GoNet

open GoStrings

/-! ## Auxiliary definitions for the proofs about package `net` -/

/-- A character that `IP.String` can print: a hexadecimal digit, `.`, `:` or
one of `<nil>?`. -/
def printable (c : Char) : Bool :=
  c ∈ "0123456789abcdef.:<nil>?".data

/-- The dotted decimal text of four bytes. -/
def dotted (a b c d : Nat) : List Char :=
  uitoa a ++ ['.'] ++ uitoa b ++ ['.'] ++ uitoa c ++ ['.'] ++ uitoa d

/-- A pair `(e0, e1)` is either `(-1, -1)` or delimits a non-empty run of zero
groups of the address. -/
def GoodRun (p : IP) (e : Int × Int) : Prop :=
  e = (-1, -1) ∨ ∃ a b : Nat, a < b ∧ b ≤ 8 ∧ e = (((2 * a : Nat) : Int), ((2 * b : Nat) : Int)) ∧
    ∀ k, 2 * a ≤ k → k < 2 * b → p.getD k 0 = 0

/-- The hexadecimal text of one 16-bit group. -/
def hexGroup (g : Nat) : List Char := appendHex [] g

/-- The text of a list of groups, separated by colons. -/
def joinGroups : List Nat → List Char
  | [] => []
  | [g] => hexGroup g
  | g :: gs => hexGroup g ++ ':' :: joinGroups gs

/-- The bytes of a list of groups written into an address from index `i` on,
as the loop of `parseIPv6` does. -/
def writeGroups (ip : List Nat) (i : Nat) : List Nat → List Nat
  | [] => ip
  | g :: gs => writeGroups ((ip.set i ((g >>> 8) % 256)).set (i + 1) (g % 256)) (i + 2) gs

/-- A text that begins with the text of a group. -/
def StartsWithGroup (t : List Char) : Prop :=
  ∃ g r, g < 65536 ∧ t = hexGroup g ++ r

/-- The eight 16-bit groups of a 16-byte address, as `IP.String` forms them. -/
def groups (p : IP) : List Nat :=
  (List.range 8).map (fun k => (p.getD (2 * k) 0 <<< 8) ||| p.getD (2 * k + 1) 0)

/-- The two bytes of a group, high byte first, as `parseIPv6` stores them. -/
def splitGroup (g : Nat) : Nat × Nat := ((g >>> 8) % 256, g % 256)

/-- Pairs of bytes written into an address from index `i` on. -/
def writePairs (ip : List Nat) (i : Nat) : List (Nat × Nat) → List Nat
  | [] => ip
  | p :: ps => writePairs ((ip.set i p.1).set (i + 1) p.2) (i + 2) ps

/-- The bytes of a list of pairs. -/
def pairBytes : List (Nat × Nat) → List Nat
  | [] => []
  | p :: ps => p.1 :: p.2 :: pairBytes ps

/-- A 16-byte address: sixteen bytes, each below 256. -/
def IP16 (ip : List Nat) : Prop := ip.length = 16 ∧ ∀ x ∈ ip, x < 256

/-- The absent address or a 16-byte address. -/
def NilOrIP16 (ip : List Nat) : Prop := ip = [] ∨ IP16 ip

end GoNet

namespace Updater

open GoNet GoStrings

/-! ## Auxiliary definitions for the theorems about the program -/

/-- The URLs requested in a trace, oldest first. -/
def gets : List Effect → List String
  | [] => []
  | .get url :: es => url :: gets es
  | .write _ _ _ :: es => gets es

/-- The files written in a trace, oldest first. -/
def writes : List Effect → List (String × String)
  | [] => []
  | .get _ :: es => writes es
  | .write path data _ :: es => (path, data) :: writes es

/-- A configuration for the scenarios: single-shot, with credentials. -/
def scenarioConfig : Config := ⟨0, "user", "secret", "1234", "current-ip"⟩

/-- A file system whose cache file holds `203.0.113.5`. -/
def scenarioFS : String → FileState :=
  fun p => if p = "current-ip" then .content "203.0.113.5\n" else .missing

/-- A network whose resolver answers `ipBody` and whose update endpoint
answers `updBody`; writes succeed. -/
def scenarioWorld (ipBody updBody : String) : World :=
  ⟨fun url => if url = ipURL then .body ipBody else .body updBody, fun _ => none⟩

/-- A valid address: 4 or 16 bytes, each below 256. -/
def IPValid (ip : IP) : Prop :=
  (ip.length = IPv4len ∨ ip.length = IPv6len) ∧ ∀ b ∈ ip, b < 256

/-- The number of empty fields among the four required ones. -/
def emptyFields (c : Config) : Nat :=
  (if c.Username = "" then 1 else 0) + (if c.Password = "" then 1 else 0) +
    (if c.RecordID = "" then 1 else 0) + (if c.CurrentIPFile = "" then 1 else 0)

/-- The invariant of interval mode: no panic, `done` is closed exactly when
`once.Do` has run, and `close(done)` was executed that many times. -/
def IntervalInv (s : Proc) : Prop :=
  s.panicked = false ∧ s.doneClosed = s.onceDone ∧ s.closes = if s.onceDone then 1 else 0

/-- The invariant of single-shot mode: the tick channel stays nil, `done` is
closed once the setup is over, and `run` has been called once exactly when the
main goroutine is past the top of the loop. -/
def SingleShotInv (s : Proc) : Prop :=
  s.tickNil = true ∧ (s.pc ≠ .start → s.doneClosed = true) ∧
    s.runs = if s.pc = .start ∨ s.pc = .loop then 0 else 1

/-- Whether an action is a step of the main goroutine. -/
def Action.isMain : Action → Bool
  | .signal => false
  | .handle => false
  | _ => true

/-- How far the main goroutine has come. -/
def PC.rank : PC → Nat
  | .start => 0
  | .loop => 1
  | .running => 2
  | .waiting => 3
  | .fatal => 3
  | .returned => 4

end Updater

namespace GoNet

open GoStrings

/-! ## Lemmas: the characters printed by `IP.String` -/

/-- Trimming a text without white space that is followed by a newline gives
the text back. -/
theorem trimSpace_append_newline (X : List Char) (h : ∀ c ∈ X, isSpace c = false) :
    TrimSpace (⟨X⟩ ++ "\n") = ⟨X⟩ := by
  have hdata : ((⟨X⟩ : String) ++ "\n").data = X ++ ['\n'] := by
    simp [String.data_append]
  have hdrop : ∀ Y : List Char, (∀ c ∈ Y, isSpace c = false) → Y.dropWhile isSpace = Y := by
    intro Y hY
    cases Y with
    | nil => rfl
    | cons y ys => simp [List.dropWhile_cons, hY y (List.mem_cons_self _ _)]
  unfold TrimSpace
  rw [hdata]
  congr 1
  cases X with
  | nil => decide
  | cons y ys =>
    have h1 : (y :: ys ++ ['\n']).dropWhile isSpace = y :: ys ++ ['\n'] := by
      simp [List.dropWhile_cons, h y (List.mem_cons_self _ _)]
    rw [h1, List.reverse_append]
    have h2 : (['\n'].reverse ++ (y :: ys).reverse).dropWhile isSpace = (y :: ys).reverse := by
      have : isSpace '\n' = true := by decide
      rw [show ['\n'].reverse = ['\n'] from rfl, List.singleton_append, List.dropWhile_cons,
        if_pos this]
      exact hdrop _ (fun c hc => h c (List.mem_reverse.mp hc))
    rw [h2, List.reverse_reverse]

/-- Printable characters are not white space. -/
theorem printable_not_space (c : Char) (h : printable c = true) : isSpace c = false := by
  have hall : ∀ x ∈ "0123456789abcdef.:<nil>?".data, isSpace x = false := by decide
  exact hall c (by simpa [printable] using h)

/-- A decimal digit character is printable. -/
theorem printable_digit (d : Nat) (h : d < 10) : printable (Char.ofNat ('0'.toNat + d)) = true := by
  interval_cases d <;> decide

/-- The characters of `uitoaLoop` are printable. -/
theorem uitoaLoop_printable (fuel : Nat) :
    ∀ (val : Nat) (buf : List Char), (∀ c ∈ buf, printable c = true) →
      ∀ c ∈ uitoaLoop fuel val buf, printable c = true := by
  induction fuel with
  | zero => intro val buf hb; simpa [uitoaLoop] using hb
  | succ n ih =>
    intro val buf hb
    unfold uitoaLoop
    split
    · apply ih
      intro c hc
      rcases List.mem_cons.mp hc with h | h
      · subst h
        have : '0'.toNat + val - val / 10 * 10 = '0'.toNat + val % 10 := by
          have := Nat.div_add_mod val 10
          omega
        rw [this]
        exact printable_digit _ (Nat.mod_lt _ (by norm_num))
      · exact hb c h
    · intro c hc
      rcases List.mem_cons.mp hc with h | h
      · subst h
        exact printable_digit _ (by omega)
      · exact hb c h

/-- The characters of `uitoa` are printable. -/
theorem uitoa_printable (val : Nat) : ∀ c ∈ uitoa val, printable c = true := by
  unfold uitoa
  split
  · intro c hc
    simp only [List.mem_singleton] at hc
    subst hc
    decide
  · exact uitoaLoop_printable 20 val [] (by simp)

/-- The entries of `hexDigit` are printable. -/
theorem hexDigit_printable (k : Nat) : printable (hexDigit.getD k '0') = true := by
  by_cases h : k < 16
  · interval_cases k <;> decide
  · have : hexDigit.getD k '0' = '0' := by
      apply List.getD_eq_default
      simp [hexDigit]
      omega
    rw [this]
    decide

/-- The loop of `appendHex` appends to its destination. -/
theorem appendHexLoop_append (i k : Nat) :
    ∀ dst : List Char, appendHexLoop i k dst = dst ++ appendHexLoop i k [] := by
  induction k with
  | zero => intro dst; simp [appendHexLoop]
  | succ n ih =>
    intro dst
    unfold appendHexLoop
    simp only
    split
    · rw [ih (dst ++ _), ih ([] ++ _)]
      simp
    · exact ih dst

/-- The function `appendHex` appends to its destination. -/
theorem appendHex_append (dst : List Char) (i : Nat) :
    appendHex dst i = dst ++ appendHex [] i := by
  unfold appendHex
  split
  · simp
  · exact appendHexLoop_append i 8 dst

/-- The characters of the loop of `appendHex` are printable. -/
theorem appendHexLoop_printable (i k : Nat) :
    ∀ c ∈ appendHexLoop i k [], printable c = true := by
  induction k with
  | zero => simp [appendHexLoop]
  | succ n ih =>
    unfold appendHexLoop
    simp only
    split
    · rw [appendHexLoop_append]
      intro c hc
      rcases List.mem_append.mp hc with h | h
      · simp only [List.nil_append, List.mem_singleton] at h
        subst h
        exact hexDigit_printable _
      · exact ih c h
    · exact ih

/-- The characters of `appendHex` are printable. -/
theorem appendHex_printable (i : Nat) : ∀ c ∈ appendHex [] i, printable c = true := by
  unfold appendHex
  split
  · intro c hc
    simp only [List.nil_append, List.mem_singleton] at hc
    subst hc
    decide
  · exact appendHexLoop_printable i 8

/-- The characters of `printGroups` are printable. -/
theorem printGroups_printable (p : IP) (e0 e1 : Int) (fuel : Nat) :
    ∀ (i : Nat) (b : List Char), (∀ c ∈ b, printable c = true) →
      ∀ c ∈ printGroups p e0 e1 fuel i b, printable c = true := by
  induction fuel with
  | zero => intro i b hb; simpa [printGroups] using hb
  | succ n ih =>
    intro i b hb
    have hcolon : printable ':' = true := by decide
    have happ : ∀ (b : List Char) (g : Nat), (∀ c ∈ b, printable c = true) →
        ∀ c ∈ appendHex b g, printable c = true := by
      intro b g hb c hc
      rw [appendHex_append] at hc
      rcases List.mem_append.mp hc with h | h
      · exact hb c h
      · exact appendHex_printable g c h
    have hb2 : ∀ c ∈ b ++ [':', ':'], printable c = true := by
      intro c hc
      rcases List.mem_append.mp hc with h | h
      · exact hb c h
      · simp only [List.mem_cons, List.mem_singleton, List.not_mem_nil, or_false, or_self] at h
        subst h
        exact hcolon
    have hb1 : ∀ c ∈ (if i > 0 then b ++ [':'] else b), printable c = true := by
      split
      · intro c hc
        rcases List.mem_append.mp hc with h | h
        · exact hb c h
        · simp only [List.mem_singleton] at h
          subst h
          exact hcolon
      · exact hb
    unfold printGroups
    simp only
    split
    · split
      · split
        · exact hb2
        · exact ih _ _ (happ _ _ hb2)
      · exact ih _ _ (happ _ _ hb1)
    · exact hb

/-- No character of `IP.String` is white space. -/
theorem chars_not_space (ip : IP) : ∀ c ∈ IP.chars ip, isSpace c = false := by
  intro c hc
  apply printable_not_space
  revert c
  unfold IP.chars
  split
  · decide
  · simp only
    split
    · intro c hc
      simp only [List.append_assoc, List.mem_append, List.mem_singleton] at hc
      have hdot : printable '.' = true := by decide
      rcases hc with h | h | h | h | h | h | h
      · exact uitoa_printable _ c h
      · subst h; exact hdot
      · exact uitoa_printable _ c h
      · subst h; exact hdot
      · exact uitoa_printable _ c h
      · subst h; exact hdot
      · exact uitoa_printable _ c h
    · split
      · decide
      · exact printGroups_printable ip _ _ 8 0 [] (by simp)

/-- Reading back what `saveIP` wrote: trimming `ip.String() + "\n"` gives
`ip.String()`. -/
theorem trimSpace_string_newline (ip : IP) :
    TrimSpace (IP.String ip ++ "\n") = IP.String ip :=
  trimSpace_append_newline (IP.chars ip) (chars_not_space ip)

/-! ## Lemmas: reading back dotted decimal -/

/-- What follows the dot does not matter to `dtoi`. -/
theorem dtoiLoop_dot (xs : List Char) :
    ∀ (n i : Nat) (r : List Char), dtoiLoop (xs ++ '.' :: r) n i = dtoiLoop (xs ++ ['.']) n i := by
  induction xs with
  | nil =>
    intro n i r
    simp [dtoiLoop]
  | cons x xs ih =>
    intro n i r
    simp only [List.cons_append, dtoiLoop]
    split
    · split
      · rfl
      · exact ih _ _ r
    · rfl

set_option maxRecDepth 100000 in
/-- Reading the decimal text of a byte, followed by a dot, gives the byte. -/
theorem dtoi_uitoa_dot_all :
    ∀ b < 256, dtoi (uitoa b ++ ['.']) = (b, (uitoa b).length, true) := by
  decide

set_option maxRecDepth 100000 in
/-- Reading the decimal text of a byte at the end of the text gives the byte. -/
theorem dtoi_uitoa_all : ∀ b < 256, dtoi (uitoa b) = (b, (uitoa b).length, true) := by
  decide

set_option maxRecDepth 100000 in
/-- The decimal text of a byte is not empty and has neither dot nor colon. -/
theorem uitoa_chars_all :
    ∀ b < 256, uitoa b ≠ [] ∧ ∀ c ∈ uitoa b, c ≠ '.' ∧ c ≠ ':' := by
  decide

/-- Reading a byte followed by a dot: `dtoi` stops at the dot. -/
theorem dtoi_uitoa_dot (b : Nat) (hb : b < 256) (r : List Char) :
    dtoi (uitoa b ++ '.' :: r) = (b, (uitoa b).length, true) := by
  unfold dtoi
  rw [dtoiLoop_dot]
  exact dtoi_uitoa_dot_all b hb

/-- One round of the loop of `parseIPv4` on the first octet. -/
theorem parseIPv4Loop_first (k b : Nat) (hk : 0 < k) (hb : b < 256) (r : List Char)
    (p : List Nat) :
    parseIPv4Loop k 0 (uitoa b ++ '.' :: r) p =
      parseIPv4Loop (k - 1) 1 ('.' :: r) (p.set 0 b) := by
  obtain ⟨k, rfl⟩ := Nat.exists_eq_succ_of_ne_zero (Nat.pos_iff_ne_zero.mp hk)
  have hb2 : ¬ 255 < b := by omega
  simp only [parseIPv4Loop]
  simp [dtoi_uitoa_dot b hb r, Nat.mod_eq_of_lt hb, hb2]

/-- One round of the loop of `parseIPv4` on a middle octet. -/
theorem parseIPv4Loop_mid (k i b : Nat) (hk : 0 < k) (hi : 0 < i) (hb : b < 256)
    (r : List Char) (p : List Nat) :
    parseIPv4Loop k i ('.' :: (uitoa b ++ '.' :: r)) p =
      parseIPv4Loop (k - 1) (i + 1) ('.' :: r) (p.set i b) := by
  obtain ⟨k, rfl⟩ := Nat.exists_eq_succ_of_ne_zero (Nat.pos_iff_ne_zero.mp hk)
  have hb2 : ¬ 255 < b := by omega
  simp only [parseIPv4Loop]
  simp [dtoi_uitoa_dot b hb r, Nat.mod_eq_of_lt hb, hi, hb2]

/-- One round of the loop of `parseIPv4` on the last octet. -/
theorem parseIPv4Loop_last (k i b : Nat) (hk : 0 < k) (hi : 0 < i) (hb : b < 256)
    (p : List Nat) :
    parseIPv4Loop k i ('.' :: uitoa b) p = parseIPv4Loop (k - 1) (i + 1) [] (p.set i b) := by
  obtain ⟨k, rfl⟩ := Nat.exists_eq_succ_of_ne_zero (Nat.pos_iff_ne_zero.mp hk)
  have hb2 : ¬ 255 < b := by omega
  simp only [parseIPv4Loop]
  simp [dtoi_uitoa_all b hb, Nat.mod_eq_of_lt hb, hi, hb2]

/-- The function `parseIPv4` reads dotted decimal text back. -/
theorem parseIPv4_dotted (a b c d : Nat) (ha : a < 256) (hb : b < 256) (hc : c < 256)
    (hd : d < 256) : parseIPv4 (dotted a b c d) = IPv4 a b c d := by
  unfold parseIPv4 dotted
  simp only [List.append_assoc, List.singleton_append, List.cons_append, List.nil_append, IPv4len]
  rw [parseIPv4Loop_first 4 a (by norm_num) ha,
    parseIPv4Loop_mid (4 - 1) 1 b (by norm_num) (by norm_num) hb,
    parseIPv4Loop_mid (4 - 1 - 1) 2 c (by norm_num) (by norm_num) hc,
    parseIPv4Loop_last (4 - 1 - 1 - 1) 3 d (by norm_num) (by norm_num) hd]
  simp [parseIPv4Loop]

/-- The scan of `ParseIP` skips characters that are neither dot nor colon. -/
theorem parseIPScan_skip (s : List Char) (xs : List Char)
    (h : ∀ c ∈ xs, c ≠ '.' ∧ c ≠ ':') (r : List Char) :
    parseIPScan s (xs ++ r) = parseIPScan s r := by
  induction xs with
  | nil => rfl
  | cons x xs ih =>
    have hx := h x (List.mem_cons_self _ _)
    simp only [List.cons_append, parseIPScan, hx.1, hx.2, if_false]
    exact ih (fun c hc => h c (List.mem_cons_of_mem _ hc))

/-- The function `ParseIP` reads dotted decimal text back. -/
theorem parseIP_dotted (a b c d : Nat) (ha : a < 256) (hb : b < 256) (hc : c < 256)
    (hd : d < 256) : ParseIP ⟨dotted a b c d⟩ = IPv4 a b c d := by
  unfold ParseIP
  simp only
  have h : parseIPScan (dotted a b c d) (dotted a b c d) = parseIPv4 (dotted a b c d) := by
    conv_lhs => arg 2; unfold dotted
    simp only [List.append_assoc, List.singleton_append, List.cons_append, List.nil_append]
    rw [parseIPScan_skip _ _ (uitoa_chars_all a ha).2]
    simp [parseIPScan]
  rw [h, parseIPv4_dotted a b c d ha hb hc hd]

/-! ## Lemmas: reading back hexadecimal groups -/

/-- Masking with `0xf` is the remainder modulo 16. -/
theorem and_0xf (x : Nat) : x &&& 0xf = x % 16 :=
  Nat.and_pow_two_sub_one_eq_mod x 4

/-- One round of `xtoi` on a digit of `hexDigit`. -/
theorem xtoiLoop_hexDigit (k : Nat) (hk : k < 16) (cs : List Char) (n i : Nat)
    (hn : n * 16 + k < 16777215) :
    xtoiLoop (hexDigit.getD k '0' :: cs) n i = xtoiLoop cs (n * 16 + k) (i + 1) := by
  have hn2 : ¬ (16777215 ≤ n * 16 + k) := by omega
  interval_cases k <;> simp [xtoiLoop, hexDigit, big, hn2]
  omega

/-- At the end of the text or at a colon `xtoi` stops. -/
theorem xtoiLoop_stop (rest : List Char) (h : rest = [] ∨ ∃ r, rest = ':' :: r) (n i : Nat) :
    xtoiLoop rest n i = if i = 0 then (0, i, false) else (n, i, true) := by
  rcases h with h | ⟨r, h⟩ <;> subst h <;> simp [xtoiLoop]

/-- The hexadecimal text of a non-zero 16-bit group, digit by digit. -/
theorem appendHex_eq (g : Nat) (hg : g < 65536) (h0 : g ≠ 0) :
    appendHex [] g =
      (if g / 4096 > 0 then [hexDigit.getD (g / 4096 % 16) '0'] else []) ++
      ((if g / 256 > 0 then [hexDigit.getD (g / 256 % 16) '0'] else []) ++
      ((if g / 16 > 0 then [hexDigit.getD (g / 16 % 16) '0'] else []) ++
      [hexDigit.getD (g % 16) '0'])) := by
  have h7 : g / 268435456 = 0 := Nat.div_eq_of_lt (by omega)
  have h6 : g / 16777216 = 0 := Nat.div_eq_of_lt (by omega)
  have h5 : g / 1048576 = 0 := Nat.div_eq_of_lt (by omega)
  have h4 : g / 65536 = 0 := Nat.div_eq_of_lt (by omega)
  have hpos : 0 < g := Nat.pos_of_ne_zero h0
  simp only [appendHex, h0, if_false, appendHexLoop, Nat.shiftRight_eq_div_pow, and_0xf]
  norm_num [h7, h6, h5, h4, hpos]
  split <;> split <;> split <;> simp

/-- Reading the hexadecimal text of a 16-bit group, at the end of the text or
before a colon, gives the group. -/
theorem xtoi_appendHex (g : Nat) (hg : g < 65536) (rest : List Char)
    (h : rest = [] ∨ ∃ r, rest = ':' :: r) :
    xtoi (appendHex [] g ++ rest) = (g, (appendHex [] g).length, true) := by
  by_cases h0 : g = 0
  · subst h0
    rcases h with h | ⟨r, h⟩ <;> subst h <;> simp [xtoi, appendHex, xtoiLoop, big]
  · rw [appendHex_eq g hg h0]
    unfold xtoi
    by_cases h3 : g / 4096 > 0
    · have h2 : g / 256 > 0 := by omega
      have h1 : g / 16 > 0 := by omega
      simp only [h3, h2, h1, if_true, List.cons_append, List.nil_append]
      rw [xtoiLoop_hexDigit _ (by omega) _ _ _ (by omega),
        xtoiLoop_hexDigit _ (by omega) _ _ _ (by omega),
        xtoiLoop_hexDigit _ (by omega) _ _ _ (by omega),
        xtoiLoop_hexDigit _ (by omega) _ _ _ (by omega), xtoiLoop_stop rest h]
      simp
      omega
    · by_cases h2 : g / 256 > 0
      · have h1 : g / 16 > 0 := by omega
        simp only [h3, h2, h1, if_true, if_false, List.cons_append, List.nil_append]
        rw [xtoiLoop_hexDigit _ (by omega) _ _ _ (by omega),
          xtoiLoop_hexDigit _ (by omega) _ _ _ (by omega),
          xtoiLoop_hexDigit _ (by omega) _ _ _ (by omega), xtoiLoop_stop rest h]
        simp
        omega
      · by_cases h1 : g / 16 > 0
        · simp only [h3, h2, h1, if_true, if_false, List.cons_append, List.nil_append]
          rw [xtoiLoop_hexDigit _ (by omega) _ _ _ (by omega),
            xtoiLoop_hexDigit _ (by omega) _ _ _ (by omega), xtoiLoop_stop rest h]
          simp
          omega
        · simp only [h3, h2, h1, if_false, List.cons_append, List.nil_append]
          rw [xtoiLoop_hexDigit _ (by omega) _ _ _ (by omega), xtoiLoop_stop rest h]
          simp
          omega

/-- The entries of `hexDigit` are neither dot nor colon. -/
theorem hexDigit_ne (k : Nat) : hexDigit.getD k '0' ≠ '.' ∧ hexDigit.getD k '0' ≠ ':' := by
  by_cases h : k < 16
  · interval_cases k <;> decide
  · have : hexDigit.getD k '0' = '0' := by
      apply List.getD_eq_default
      simp [hexDigit]
      omega
    rw [this]
    decide

/-- The hexadecimal text of a group is not empty and has neither dot nor
colon. -/
theorem appendHex_chars (g : Nat) (hg : g < 65536) :
    appendHex [] g ≠ [] ∧ ∀ c ∈ appendHex [] g, c ≠ '.' ∧ c ≠ ':' := by
  by_cases h0 : g = 0
  · subst h0
    simp [appendHex]
  · rw [appendHex_eq g hg h0]
    constructor
    · simp
    · intro c hc
      simp only [List.mem_append, List.mem_singleton] at hc
      rcases hc with hc | hc | hc | hc
      · split at hc
        · simp only [List.mem_singleton] at hc
          subst hc
          exact hexDigit_ne _
        · simp at hc
      · split at hc
        · simp only [List.mem_singleton] at hc
          subst hc
          exact hexDigit_ne _
        · simp at hc
      · split at hc
        · simp only [List.mem_singleton] at hc
          subst hc
          exact hexDigit_ne _
        · simp at hc
      · subst hc
        exact hexDigit_ne _

/-! ## Lemmas: the run of zero groups that `IP.String` abbreviates -/

/-- The inner loop stops at an even position, not before its start, within the
address, and passes over zero bytes only. -/
theorem zeroRunEnd_spec (p : IP) (fuel : Nat) :
    ∀ m : Nat, m ≤ 8 → ∃ m2 : Nat, zeroRunEnd p fuel (2 * m) = 2 * m2 ∧ m ≤ m2 ∧ m2 ≤ 8 ∧
      ∀ k, 2 * m ≤ k → k < 2 * m2 → p.getD k 0 = 0 := by
  induction fuel with
  | zero =>
    intro m hm
    exact ⟨m, rfl, le_refl _, hm, fun k h1 h2 => absurd h2 (by omega)⟩
  | succ n ih =>
    intro m hm
    unfold zeroRunEnd
    split
    · rename_i hc
      obtain ⟨hlt, hz0, hz1⟩ := hc
      simp only [IPv6len] at hlt
      obtain ⟨m2, h1, h2, h3, h4⟩ := ih (m + 1) (by omega)
      refine ⟨m2, ?_, by omega, h3, ?_⟩
      · rw [← h1]
        rfl
      · intro k hk1 hk2
        by_cases hk : k = 2 * m
        · rw [hk]; exact hz0
        · by_cases hk3 : k = 2 * m + 1
          · rw [hk3]; exact hz1
          · exact h4 k (by omega) hk2
    · exact ⟨m, rfl, le_refl _, hm, fun k h1 h2 => absurd h2 (by omega)⟩

/-- The outer loop keeps the best run found so far a run of zero groups. -/
theorem longestZeroRun_good (p : IP) (fuel : Nat) :
    ∀ (m : Nat) (e0 e1 : Int), GoodRun p (e0, e1) →
      GoodRun p (longestZeroRun p fuel (2 * m) e0 e1) := by
  induction fuel with
  | zero => intro m e0 e1 h; exact h
  | succ n ih =>
    intro m e0 e1 h
    unfold longestZeroRun
    split
    · rename_i hlt
      simp only [IPv6len] at hlt
      obtain ⟨m2, h1, h2, h3, h4⟩ := zeroRunEnd_spec p 8 m (by omega)
      simp only
      split
      · rename_i hc
        rw [h1] at hc ⊢
        have := ih (m2 + 1) ((2 * m : Nat) : Int) ((2 * m2 : Nat) : Int)
          (Or.inr ⟨m, m2, by omega, h3, rfl, h4⟩)
        exact this
      · exact ih (m + 1) e0 e1 h
    · exact h

/-- The run abbreviated by `IP.String` is absent, or it spans at least two
groups of the address, all zero. -/
theorem zeroRun_spec (p : IP) :
    zeroRun p = (-1, -1) ∨ ∃ a b : Nat, a + 2 ≤ b ∧ b ≤ 8 ∧
      zeroRun p = (((2 * a : Nat) : Int), ((2 * b : Nat) : Int)) ∧
      ∀ k, 2 * a ≤ k → k < 2 * b → p.getD k 0 = 0 := by
  have h := longestZeroRun_good p 8 0 (-1) (-1) (Or.inl rfl)
  simp only [Nat.mul_zero] at h
  by_cases hle : (longestZeroRun p 8 0 (-1) (-1)).2 - (longestZeroRun p 8 0 (-1) (-1)).1 ≤ 2
  · left
    simp only [zeroRun, hle, if_true]
  · have hzr : zeroRun p = longestZeroRun p 8 0 (-1) (-1) := by
      simp only [zeroRun, hle, if_false]
    rw [hzr]
    rcases h with h | ⟨a, b, hab, hb, he, hz⟩
    · rw [h] at hle
      exact absurd hle (by simp)
    · right
      refine ⟨a, b, ?_, hb, he, hz⟩
      rw [he] at hle
      simp only at hle
      omega

/-! ## Lemmas: reading back the groups of an IPv6 address -/

/-- The function `appendHex` appends the text of the group. -/
theorem appendHex_hexGroup (dst : List Char) (g : Nat) : appendHex dst g = dst ++ hexGroup g :=
  appendHex_append dst g

/-- A text that begins with a group is not empty and does not begin with a
colon. -/
theorem StartsWithGroup.head {t : List Char} (h : StartsWithGroup t) :
    t ≠ [] ∧ t.head? ≠ some ':' := by
  obtain ⟨g, r, hg, rfl⟩ := h
  obtain ⟨hne, hch⟩ := appendHex_chars g hg
  unfold hexGroup
  cases hx : appendHex [] g with
  | nil => exact absurd hx hne
  | cons c cs =>
    have := (hch c (by rw [hx]; exact List.mem_cons_self _ _)).2
    simp [this]

/-- The text of a non-empty list of groups begins with a group. -/
theorem joinGroups_starts (g : Nat) (gs : List Nat) (hg : g < 65536) (r : List Char) :
    StartsWithGroup (joinGroups (g :: gs) ++ r) := by
  cases gs with
  | nil => exact ⟨g, r, hg, rfl⟩
  | cons g2 gs => exact ⟨g, ':' :: joinGroups (g2 :: gs) ++ r, hg, by simp [joinGroups]⟩

/-- Reading a group that is followed by a colon. -/
theorem xtoi_hexGroup_colon (g : Nat) (hg : g < 65536) (r : List Char) :
    xtoi (hexGroup g ++ ':' :: r) = (g, (hexGroup g).length, true) :=
  xtoi_appendHex g hg _ (Or.inr ⟨r, rfl⟩)

/-- Reading a group at the end of the text. -/
theorem xtoi_hexGroup_end (g : Nat) (hg : g < 65536) :
    xtoi (hexGroup g) = (g, (hexGroup g).length, true) := by
  have := xtoi_appendHex g hg [] (Or.inl rfl)
  simpa using this

/-- One round of the loop of `parseIPv6`: a group, a colon, another group. -/
theorem parseIPv6Loop_colon (k : Nat) (ip : List Nat) (ell : Int) (i g : Nat) (t : List Char)
    (hi : i < 16) (hg : g < 65536) (ht : StartsWithGroup t) :
    parseIPv6Loop (k + 1) ⟨ip, ell, hexGroup g ++ ':' :: t, i⟩ =
      parseIPv6Loop k ⟨(ip.set i ((g >>> 8) % 256)).set (i + 1) (g % 256), ell, t, i + 2⟩ := by
  obtain ⟨hne, hhd⟩ := ht.head
  have hg2 : ¬ 65535 < g := by omega
  have hget : (hexGroup g ++ ':' :: t).getD (hexGroup g).length ' ' = ':' := by
    rw [List.getD_append_right _ _ _ _ (le_refl _)]
    simp
  simp only [parseIPv6Loop, IPv6len, hi, if_true, xtoi_hexGroup_colon g hg t, hget]
  simp [hg2, hne, hhd]

/-- One round of the loop of `parseIPv6`: a group, the ellipsis, another group. -/
theorem parseIPv6Loop_ellipsis (k : Nat) (ip : List Nat) (i g : Nat) (t : List Char)
    (hi : i < 16) (hg : g < 65536) (ht : StartsWithGroup t) :
    parseIPv6Loop (k + 1) ⟨ip, -1, hexGroup g ++ ':' :: ':' :: t, i⟩ =
      parseIPv6Loop k
        ⟨(ip.set i ((g >>> 8) % 256)).set (i + 1) (g % 256), ((i + 2 : Nat) : Int), t, i + 2⟩ := by
  obtain ⟨hne, hhd⟩ := ht.head
  have hg2 : ¬ 65535 < g := by omega
  have hget : (hexGroup g ++ ':' :: ':' :: t).getD (hexGroup g).length ' ' = ':' := by
    rw [List.getD_append_right _ _ _ _ (le_refl _)]
    simp
  simp only [parseIPv6Loop, IPv6len, hi, if_true, xtoi_hexGroup_colon g hg (':' :: t), hget]
  simp [hg2, hne, hhd]

/-- One round of the loop of `parseIPv6`: a group and the ellipsis at the end. -/
theorem parseIPv6Loop_ellipsis_end (k : Nat) (ip : List Nat) (i g : Nat)
    (hi : i < 16) (hg : g < 65536) :
    parseIPv6Loop (k + 1) ⟨ip, -1, hexGroup g ++ [':', ':'], i⟩ =
      some ⟨(ip.set i ((g >>> 8) % 256)).set (i + 1) (g % 256), ((i + 2 : Nat) : Int), [],
        i + 2⟩ := by
  have hg2 : ¬ 65535 < g := by omega
  have hget : (hexGroup g ++ [':', ':']).getD (hexGroup g).length ' ' = ':' := by
    rw [List.getD_append_right _ _ _ _ (le_refl _)]
    simp
  simp only [parseIPv6Loop, IPv6len, hi, if_true, xtoi_hexGroup_colon g hg [':'], hget]
  simp [hg2]

/-- One round of the loop of `parseIPv6`: the last group of the text. -/
theorem parseIPv6Loop_end (k : Nat) (ip : List Nat) (ell : Int) (i g : Nat)
    (hi : i < 16) (hg : g < 65536) :
    parseIPv6Loop (k + 1) ⟨ip, ell, hexGroup g, i⟩ =
      some ⟨(ip.set i ((g >>> 8) % 256)).set (i + 1) (g % 256), ell, [], i + 2⟩ := by
  have hg2 : ¬ 65535 < g := by omega
  simp only [parseIPv6Loop, IPv6len, hi, if_true, xtoi_hexGroup_end g hg]
  simp [hg2]

/-- The loop of `parseIPv6` on a list of groups that ends the text. -/
theorem parseIPv6Loop_groups (gs : List Nat) :
    ∀ (g : Nat) (k : Nat) (ip : List Nat) (ell : Int) (i : Nat),
      (∀ x ∈ g :: gs, x < 65536) → gs.length < k → i + 2 * (gs.length + 1) ≤ 16 →
      parseIPv6Loop k ⟨ip, ell, joinGroups (g :: gs), i⟩ =
        some ⟨writeGroups ip i (g :: gs), ell, [], i + 2 * (gs.length + 1)⟩ := by
  induction gs with
  | nil =>
    intro g k ip ell i hlt hk hi
    obtain ⟨k, rfl⟩ := Nat.exists_eq_succ_of_ne_zero (Nat.pos_iff_ne_zero.mp hk)
    simp only [joinGroups, writeGroups, List.length_nil]
    exact parseIPv6Loop_end k ip ell i g (by simp at hi; omega) (hlt g (List.mem_cons_self _ _))
  | cons g2 gs ih =>
    intro g k ip ell i hlt hk hi
    obtain ⟨k, rfl⟩ := Nat.exists_eq_succ_of_ne_zero (Nat.pos_iff_ne_zero.mp (by omega : 0 < k))
    simp only [List.length_cons] at hk hi
    have hg := hlt g (List.mem_cons_self _ _)
    have hlt2 : ∀ x ∈ g2 :: gs, x < 65536 := fun x hx => hlt x (List.mem_cons_of_mem _ hx)
    have hst : StartsWithGroup (joinGroups (g2 :: gs)) := by
      have := joinGroups_starts g2 gs (hlt2 g2 (List.mem_cons_self _ _)) []
      simpa using this
    rw [show joinGroups (g :: g2 :: gs) = hexGroup g ++ ':' :: joinGroups (g2 :: gs) from rfl,
      parseIPv6Loop_colon k ip ell i g _ (by omega) hg hst,
      ih g2 k _ ell (i + 2) hlt2 (by omega) (by omega)]
    simp only [writeGroups, List.length_cons]
    congr 2
    omega

/-- The loop of `parseIPv6` on groups, the ellipsis, and more groups. -/
theorem parseIPv6Loop_groups_ellipsis (gs : List Nat) :
    ∀ (g : Nat) (h : Nat) (hs : List Nat) (k : Nat) (ip : List Nat) (i : Nat),
      (∀ x ∈ g :: gs, x < 65536) → (∀ x ∈ h :: hs, x < 65536) →
      gs.length + 1 + hs.length < k → i + 2 * (gs.length + 1) + 2 * (hs.length + 1) ≤ 16 →
      parseIPv6Loop k ⟨ip, -1, joinGroups (g :: gs) ++ ':' :: ':' :: joinGroups (h :: hs), i⟩ =
        some ⟨writeGroups ip i ((g :: gs) ++ (h :: hs)), ((i + 2 * (gs.length + 1) : Nat) : Int),
          [], i + 2 * (gs.length + 1) + 2 * (hs.length + 1)⟩ := by
  induction gs with
  | nil =>
    intro g h hs k ip i hlt hlt' hk hi
    obtain ⟨k, rfl⟩ := Nat.exists_eq_succ_of_ne_zero (Nat.pos_iff_ne_zero.mp (by omega : 0 < k))
    simp only [List.length_nil] at hk hi
    have hst : StartsWithGroup (joinGroups (h :: hs)) := by
      have := joinGroups_starts h hs (hlt' h (List.mem_cons_self _ _)) []
      simpa using this
    rw [show joinGroups [g] = hexGroup g from rfl,
      parseIPv6Loop_ellipsis k ip i g _ (by omega) (hlt g (List.mem_cons_self _ _)) hst,
      parseIPv6Loop_groups hs h k _ _ (i + 2) hlt' (by omega) (by omega)]
    simp only [writeGroups, List.length_nil, List.cons_append, List.nil_append]
  | cons g2 gs ih =>
    intro g h hs k ip i hlt hlt' hk hi
    obtain ⟨k, rfl⟩ := Nat.exists_eq_succ_of_ne_zero (Nat.pos_iff_ne_zero.mp (by omega : 0 < k))
    simp only [List.length_cons] at hk hi
    have hg := hlt g (List.mem_cons_self _ _)
    have hlt2 : ∀ x ∈ g2 :: gs, x < 65536 := fun x hx => hlt x (List.mem_cons_of_mem _ hx)
    have hst : StartsWithGroup (joinGroups (g2 :: gs) ++ ':' :: ':' :: joinGroups (h :: hs)) :=
      joinGroups_starts g2 gs (hlt2 g2 (List.mem_cons_self _ _)) _
    rw [show joinGroups (g :: g2 :: gs) ++ ':' :: ':' :: joinGroups (h :: hs) =
        hexGroup g ++ ':' :: (joinGroups (g2 :: gs) ++ ':' :: ':' :: joinGroups (h :: hs)) by
          simp [joinGroups],
      parseIPv6Loop_colon k ip (-1) i g _ (by omega) hg hst,
      ih g2 h hs k _ (i + 2) hlt2 hlt' (by omega) (by omega)]
    simp only [writeGroups, List.length_cons, List.cons_append]
    congr 2
    · congr 1
      omega
    · omega

/-- The loop of `parseIPv6` on groups followed by the ellipsis at the end. -/
theorem parseIPv6Loop_groups_ellipsis_end (gs : List Nat) :
    ∀ (g : Nat) (k : Nat) (ip : List Nat) (i : Nat),
      (∀ x ∈ g :: gs, x < 65536) → gs.length < k → i + 2 * (gs.length + 1) ≤ 16 →
      parseIPv6Loop k ⟨ip, -1, joinGroups (g :: gs) ++ [':', ':'], i⟩ =
        some ⟨writeGroups ip i (g :: gs), ((i + 2 * (gs.length + 1) : Nat) : Int), [],
          i + 2 * (gs.length + 1)⟩ := by
  induction gs with
  | nil =>
    intro g k ip i hlt hk hi
    obtain ⟨k, rfl⟩ := Nat.exists_eq_succ_of_ne_zero (Nat.pos_iff_ne_zero.mp hk)
    simp only [List.length_nil] at hi
    rw [show joinGroups [g] = hexGroup g from rfl,
      parseIPv6Loop_ellipsis_end k ip i g (by omega) (hlt g (List.mem_cons_self _ _))]
    simp only [writeGroups, List.length_nil]
  | cons g2 gs ih =>
    intro g k ip i hlt hk hi
    obtain ⟨k, rfl⟩ := Nat.exists_eq_succ_of_ne_zero (Nat.pos_iff_ne_zero.mp (by omega : 0 < k))
    simp only [List.length_cons] at hk hi
    have hg := hlt g (List.mem_cons_self _ _)
    have hlt2 : ∀ x ∈ g2 :: gs, x < 65536 := fun x hx => hlt x (List.mem_cons_of_mem _ hx)
    have hst : StartsWithGroup (joinGroups (g2 :: gs) ++ [':', ':']) :=
      joinGroups_starts g2 gs (hlt2 g2 (List.mem_cons_self _ _)) _
    rw [show joinGroups (g :: g2 :: gs) ++ [':', ':'] =
        hexGroup g ++ ':' :: (joinGroups (g2 :: gs) ++ [':', ':']) by simp [joinGroups],
      parseIPv6Loop_colon k ip (-1) i g _ (by omega) hg hst,
      ih g2 k _ (i + 2) hlt2 (by omega) (by omega)]
    simp only [writeGroups, List.length_cons]
    congr 2
    · congr 1
      omega
    · omega

/-- A text that begins with a group does not begin with the ellipsis. -/
theorem StartsWithGroup.no_lead {t : List Char} (h : StartsWithGroup t) :
    decide (t.length ≥ 2 ∧ t.getD 0 ' ' = ':' ∧ t.getD 1 ' ' = ':') = false := by
  obtain ⟨hne, hhd⟩ := h.head
  cases t with
  | nil => exact absurd rfl hne
  | cons c cs =>
    have : c ≠ ':' := by simpa using hhd
    simp [this]

/-- The function `parseIPv6` on eight groups separated by colons. -/
theorem parseIPv6_groups8 (gs : List Nat) (hlen : gs.length = 8) (hlt : ∀ x ∈ gs, x < 65536) :
    parseIPv6 (joinGroups gs) = writeGroups (List.replicate 16 0) 0 gs := by
  cases gs with
  | nil => simp at hlen
  | cons g gs =>
    simp only [List.length_cons] at hlen
    have hst : StartsWithGroup (joinGroups (g :: gs)) := by
      have := joinGroups_starts g gs (hlt g (List.mem_cons_self _ _)) []
      simpa using this
    have hloop := parseIPv6Loop_groups gs g 8 (List.replicate 16 0) (-1) 0 hlt (by omega) (by omega)
    simp only [parseIPv6, hst.no_lead, IPv6len, Bool.false_eq_true, if_false, false_and]
    rw [hloop]
    simp [hlen]

/-- The function `parseIPv6` on groups, the ellipsis, and more groups, the two
lists together having at most seven groups. -/
theorem parseIPv6_ellipsis (A B : List Nat) (hA : ∀ x ∈ A, x < 65536) (hB : ∀ x ∈ B, x < 65536)
    (hlen : A.length + B.length ≤ 7) :
    parseIPv6 (joinGroups A ++ ':' :: ':' :: joinGroups B) =
      expandEllipsis (writeGroups (List.replicate 16 0) 0 (A ++ B)) (2 * A.length)
        (2 * (A.length + B.length)) := by
  cases A with
  | nil =>
    cases B with
    | nil => decide
    | cons h hs =>
      simp only [List.length_cons, List.length_nil] at hlen
      have hst : StartsWithGroup (joinGroups (h :: hs)) := by
        have := joinGroups_starts h hs (hB h (List.mem_cons_self _ _)) []
        simpa using this
      have hloop := parseIPv6Loop_groups hs h 8 (List.replicate 16 0) 0 0 hB (by omega) (by omega)
      have hne := hst.head.1
      have hl : decide ((':' :: ':' :: joinGroups (h :: hs)).length ≥ 2 ∧
          (':' :: ':' :: joinGroups (h :: hs)).getD 0 ' ' = ':' ∧
          (':' :: ':' :: joinGroups (h :: hs)).getD 1 ' ' = ':') = true := by simp
      have hn0 : ¬ (joinGroups (h :: hs)).length = 0 := by simpa using hne
      have hi : 0 + 2 * (hs.length + 1) < 16 := by omega
      simp only [parseIPv6, joinGroups, List.nil_append, IPv6len, hl, if_true, List.drop_succ_cons,
        List.drop_zero, true_and, hn0, if_false]
      rw [hloop]
      simp only [List.length_nil, ne_eq, not_true_eq_false, if_false, hi, if_true, lt_irrefl,
        Int.toNat_zero, List.length_cons, List.nil_append, Nat.mul_zero, Nat.zero_add]
      rw [if_pos (by omega)]
  | cons g gs =>
    have hstA : ∀ r, StartsWithGroup (joinGroups (g :: gs) ++ r) :=
      fun r => joinGroups_starts g gs (hA g (List.mem_cons_self _ _)) r
    cases B with
    | nil =>
      simp only [List.length_cons, List.length_nil] at hlen
      have hloop := parseIPv6Loop_groups_ellipsis_end gs g 8 (List.replicate 16 0) 0 hA
        (by omega) (by omega)
      have hi : 0 + 2 * (gs.length + 1) < 16 := by omega
      have he : ¬ (((0 + 2 * (gs.length + 1) : Nat) : Int) < 0) := by omega
      simp only [parseIPv6, (hstA _).no_lead, IPv6len, Bool.false_eq_true, if_false, false_and,
        joinGroups]
      rw [hloop]
      simp only [List.length_nil, ne_eq, not_true_eq_false, if_false, hi, if_true, he,
        Int.toNat_ofNat, List.append_nil, List.length_cons]
      congr 1 <;> omega
    | cons h hs =>
      simp only [List.length_cons] at hlen
      have hloop := parseIPv6Loop_groups_ellipsis gs g h hs 8 (List.replicate 16 0) 0 hA hB
        (by omega) (by omega)
      have hi : 0 + 2 * (gs.length + 1) + 2 * (hs.length + 1) < 16 := by omega
      have he : ¬ (((0 + 2 * (gs.length + 1) : Nat) : Int) < 0) := by omega
      simp only [parseIPv6, (hstA _).no_lead, IPv6len, Bool.false_eq_true, if_false, false_and]
      rw [hloop]
      simp only [List.length_nil, ne_eq, not_true_eq_false, if_false, hi, if_true, he,
        Int.toNat_ofNat, List.length_cons]
      congr 1 <;> omega

/-! ## Lemmas: what `IP.String` prints for an IPv6 address -/

/-- Without a run to abbreviate, the eight groups are printed. -/
theorem printGroups_none (p : IP) : printGroups p (-1) (-1) 8 0 [] = joinGroups (groups p) := by
  simp [printGroups, groups, joinGroups, appendHex_hexGroup, IPv6len, List.range, List.range.loop]

/-- With the run `[2a, 2b)` the groups before it, the ellipsis and the groups
after it are printed. -/
theorem printGroups_run (p : IP) (a b : Nat) (hab : a + 2 ≤ b) (hb : b ≤ 8) :
    printGroups p ((2 * a : Nat) : Int) ((2 * b : Nat) : Int) 8 0 [] =
      joinGroups ((groups p).take a) ++ ':' :: ':' :: joinGroups ((groups p).drop b) := by
  have ha : a ≤ 6 := by omega
  interval_cases a <;> interval_cases b <;>
    simp [printGroups, groups, joinGroups, appendHex_hexGroup, IPv6len, List.range,
      List.range.loop]

/-- Two bytes packed into a group. -/
theorem group_eq (x y : Nat) (hy : y < 256) : (x <<< 8) ||| y = 256 * x + y := by
  rw [Nat.shiftLeft_eq, Nat.mul_comm]
  exact (Nat.mul_add_lt_is_or (show y < 2 ^ 8 by simpa using hy) x).symm

/-- The high byte of a group. -/
theorem group_hi (x y : Nat) (hx : x < 256) (hy : y < 256) :
    (((x <<< 8) ||| y) >>> 8) % 256 = x := by
  rw [group_eq x y hy, Nat.shiftRight_eq_div_pow]
  omega

/-- The low byte of a group. -/
theorem group_lo (x y : Nat) (hy : y < 256) : ((x <<< 8) ||| y) % 256 = y := by
  rw [group_eq x y hy]
  omega

/-- A group of two bytes is below `0x10000`. -/
theorem group_lt (x y : Nat) (hx : x < 256) (hy : y < 256) : (x <<< 8) ||| y < 65536 := by
  rw [group_eq x y hy]
  omega

/-- A byte read from an address whose bytes are below 256 is below 256. -/
theorem getD_lt (p : IP) (hp : ∀ x ∈ p, x < 256) (k : Nat) : p.getD k 0 < 256 := by
  by_cases hk : k < p.length
  · rw [List.getD_eq_getElem _ _ hk]
    exact hp _ (List.getElem_mem hk)
  · rw [List.getD_eq_default _ _ (by omega)]
    norm_num

/-- The groups of an address whose bytes are below 256 are below `0x10000`. -/
theorem groups_lt (p : IP) (hp : ∀ x ∈ p, x < 256) : ∀ g ∈ groups p, g < 65536 := by
  intro g hg
  simp only [groups, List.mem_map] at hg
  obtain ⟨k, _, rfl⟩ := hg
  exact group_lt _ _ (getD_lt p hp _) (getD_lt p hp _)

/-- The groups of an address have eight elements. -/
theorem groups_length (p : IP) : (groups p).length = 8 := by
  simp [groups]

/-- A list of sixteen elements, spelled out. -/
theorem eq_of_length_16 (ip : List Nat) (hlen : ip.length = 16) :
    ∃ b0 b1 b2 b3 b4 b5 b6 b7 b8 b9 b10 b11 b12 b13 b14 b15 : Nat, ip = [b0, b1, b2, b3, b4, b5, b6, b7, b8, b9, b10, b11, b12, b13, b14, b15] := by
  rcases ip with _ | ⟨b0, _ | ⟨b1, _ | ⟨b2, _ | ⟨b3, _ | ⟨b4, _ | ⟨b5, _ | ⟨b6, _ | ⟨b7, _ | ⟨b8, _ | ⟨b9, _ | ⟨b10, _ | ⟨b11, _ | ⟨b12, _ | ⟨b13, _ | ⟨b14, _ | ⟨b15, _ | ⟨b16, tl⟩⟩⟩⟩⟩⟩⟩⟩⟩⟩⟩⟩⟩⟩⟩⟩⟩
  all_goals first
    | exact ⟨b0, b1, b2, b3, b4, b5, b6, b7, b8, b9, b10, b11, b12, b13, b14, b15, rfl⟩
    | (simp at hlen)

/-- Writing groups is writing their pairs of bytes. -/
theorem writeGroups_eq_writePairs (gs : List Nat) :
    ∀ (ip : List Nat) (i : Nat), writeGroups ip i gs = writePairs ip i (gs.map splitGroup) := by
  induction gs with
  | nil => intro ip i; rfl
  | cons g gs ih =>
    intro ip i
    simp only [writeGroups, List.map_cons, writePairs, splitGroup]
    exact ih _ _

/-- The pairs of bytes of the groups of an address are its bytes. -/
theorem pairBytes_groups (ip : IP) (hlen : ip.length = 16) (hb : ∀ x ∈ ip, x < 256) :
    pairBytes ((groups ip).map splitGroup) = ip := by
  obtain ⟨b0, b1, b2, b3, b4, b5, b6, b7, b8, b9, b10, b11, b12, b13, b14, b15, rfl⟩ := eq_of_length_16 ip hlen
  simp only [List.mem_cons, List.mem_singleton, forall_eq_or_imp, forall_eq, List.not_mem_nil,
    false_implies, implies_true, and_true] at hb
  obtain ⟨h0, h1, h2, h3, h4, h5, h6, h7, h8, h9, h10, h11, h12, h13, h14, h15⟩ := hb
  simp [groups, pairBytes, splitGroup, List.range, List.range.loop, group_hi, group_lo, *]

/-- The bytes of the first pairs are the first bytes. -/
theorem pairBytes_take (ps : List (Nat × Nat)) :
    ∀ a, pairBytes (ps.take a) = (pairBytes ps).take (2 * a) := by
  induction ps with
  | nil => intro a; simp [pairBytes]
  | cons p ps ih =>
    intro a
    cases a with
    | zero => simp [pairBytes]
    | succ a =>
      rw [show 2 * (a + 1) = 2 * a + 1 + 1 by ring]
      simp [pairBytes, ih a]

/-- The bytes of the last pairs are the last bytes. -/
theorem pairBytes_drop (ps : List (Nat × Nat)) :
    ∀ b, pairBytes (ps.drop b) = (pairBytes ps).drop (2 * b) := by
  induction ps with
  | nil => intro b; simp [pairBytes]
  | cons p ps ih =>
    intro b
    cases b with
    | zero => simp [pairBytes]
    | succ b =>
      rw [show 2 * (b + 1) = 2 * b + 1 + 1 by ring]
      simp [pairBytes, ih b]

/-- A list of eight elements, spelled out. -/
theorem eq_of_length_8 {α : Type} (l : List α) (hlen : l.length = 8) :
    ∃ x0 x1 x2 x3 x4 x5 x6 x7 : α, l = [x0, x1, x2, x3, x4, x5, x6, x7] := by
  rcases l with _ | ⟨x0, _ | ⟨x1, _ | ⟨x2, _ | ⟨x3, _ | ⟨x4, _ | ⟨x5, _ | ⟨x6, _ | ⟨x7, _ | ⟨x8, tl⟩⟩⟩⟩⟩⟩⟩⟩⟩
  all_goals first
    | exact ⟨x0, x1, x2, x3, x4, x5, x6, x7, rfl⟩
    | (simp at hlen)

set_option maxHeartbeats 1000000 in
/-- Expanding the ellipsis after writing the pairs before position `a` and
from position `b` on gives the first bytes, zeros for the run, and the last
bytes. -/
theorem expandEllipsis_writePairs (ps : List (Nat × Nat)) (hlen : ps.length = 8) (a b : Nat)
    (hab : a + 2 ≤ b) (hb8 : b ≤ 8) :
    expandEllipsis (writePairs (List.replicate 16 0) 0 (ps.take a ++ ps.drop b))
      (2 * (ps.take a).length) (2 * ((ps.take a).length + (ps.drop b).length)) =
    pairBytes (ps.take a) ++ List.replicate (2 * (b - a)) 0 ++ pairBytes (ps.drop b) := by
  obtain ⟨x0, x1, x2, x3, x4, x5, x6, x7, rfl⟩ := eq_of_length_8 ps hlen
  have ha : a ≤ 6 := by omega
  interval_cases a <;> interval_cases b <;>
    simp [expandEllipsis, writePairs, pairBytes, List.range', IPv6len]

/-- Writing eight pairs into an address of sixteen bytes gives their bytes. -/
theorem writePairs_eight (ps : List (Nat × Nat)) (hlen : ps.length = 8) :
    writePairs (List.replicate 16 0) 0 ps = pairBytes ps := by
  obtain ⟨x0, x1, x2, x3, x4, x5, x6, x7, rfl⟩ := eq_of_length_8 ps hlen
  simp [writePairs, pairBytes]

/-- Replacing a stretch of zero bytes by zeros changes nothing. -/
theorem take_zeros_drop (ip : List Nat) (m n : Nat) (hmn : m ≤ n) (hn : n ≤ ip.length)
    (hz : ∀ k, m ≤ k → k < n → ip.getD k 0 = 0) :
    ip.take m ++ List.replicate (n - m) 0 ++ ip.drop n = ip := by
  have hmid : (ip.drop m).take (n - m) = List.replicate (n - m) 0 := by
    rw [List.eq_replicate_iff]
    constructor
    · simp only [List.length_take, List.length_drop]
      omega
    · intro x hx
      obtain ⟨j, hj, rfl⟩ := List.getElem_of_mem hx
      simp only [List.length_take, List.length_drop] at hj
      have := hz (m + j) (by omega) (by omega)
      rw [List.getD_eq_getElem _ _ (by omega)] at this
      simpa using this
  have hsplit : ip.drop m = (ip.drop m).take (n - m) ++ (ip.drop m).drop (n - m) :=
    (List.take_append_drop _ _).symm
  have hdd : (ip.drop m).drop (n - m) = ip.drop n := by
    rw [List.drop_drop]
    congr 1
    omega
  rw [← hmid, List.append_assoc, ← hdd, ← hsplit, List.take_append_drop]

/-- For a 16-byte address that is not printed in dotted decimal, `parseIPv6`
reads back what `IP.String` prints. -/
theorem parseIPv6_printGroups (ip : IP) (hlen : ip.length = 16) (hb : ∀ x ∈ ip, x < 256) :
    parseIPv6 (printGroups ip (zeroRun ip).1 (zeroRun ip).2 8 0 []) = ip := by
  have hgl := groups_length ip
  have hglt := groups_lt ip hb
  rcases zeroRun_spec ip with h | ⟨a, b, hab, hb8, he, hz⟩
  · rw [h]
    simp only
    rw [printGroups_none, parseIPv6_groups8 _ hgl hglt, writeGroups_eq_writePairs,
      writePairs_eight _ (by simp [hgl]), pairBytes_groups ip hlen hb]
  · rw [he]
    simp only
    have hA : ∀ x ∈ (groups ip).take a, x < 65536 := fun x hx => hglt x (List.mem_of_mem_take hx)
    have hB : ∀ x ∈ (groups ip).drop b, x < 65536 := fun x hx => hglt x (List.mem_of_mem_drop hx)
    have hl : ((groups ip).take a).length + ((groups ip).drop b).length ≤ 7 := by
      simp only [List.length_take, List.length_drop, hgl]
      omega
    have hE := expandEllipsis_writePairs ((groups ip).map splitGroup) (by simp [hgl]) a b hab hb8
    rw [printGroups_run ip a b hab hb8, parseIPv6_ellipsis _ _ hA hB hl,
      writeGroups_eq_writePairs, List.map_append, List.map_take, List.map_drop]
    simp only [List.length_take, List.length_drop, List.length_map] at hE ⊢
    rw [hE, pairBytes_take, pairBytes_drop, pairBytes_groups ip hlen hb]
    have := take_zeros_drop ip (2 * a) (2 * b) (by omega) (by omega) hz
    rw [show 2 * b - 2 * a = 2 * (b - a) by omega] at this
    exact this

/-! ## Lemmas: `ParseIP` reads back what `IP.String` prints -/

/-- The scan of `ParseIP` on a text that begins with groups and a colon
dispatches to `parseIPv6`. -/
theorem parseIPScan_joinGroups (s : List Char) (g : Nat) (gs : List Nat) (hg : g < 65536)
    (r : List Char) : parseIPScan s (joinGroups (g :: gs) ++ ':' :: r) = parseIPv6 s := by
  have hskip : ∀ t, parseIPScan s (hexGroup g ++ ':' :: t) = parseIPv6 s := by
    intro t
    show parseIPScan s (appendHex [] g ++ ':' :: t) = _
    rw [parseIPScan_skip s _ (appendHex_chars g hg).2]
    simp [parseIPScan]
  cases gs with
  | nil => exact hskip r
  | cons g2 gs =>
    rw [show joinGroups (g :: g2 :: gs) ++ ':' :: r =
      hexGroup g ++ ':' :: (joinGroups (g2 :: gs) ++ ':' :: r) by simp [joinGroups]]
    exact hskip _

/-- The scan of `ParseIP` on the text of an IPv6 address dispatches to
`parseIPv6`. -/
theorem parseIPScan_printGroups (ip : IP) (hb : ∀ x ∈ ip, x < 256) (s : List Char) :
    parseIPScan s (printGroups ip (zeroRun ip).1 (zeroRun ip).2 8 0 []) = parseIPv6 s := by
  have hgl := groups_length ip
  have hglt := groups_lt ip hb
  rcases zeroRun_spec ip with h | ⟨a, b, hab, hb8, he, hz⟩
  · rw [h]
    simp only
    rw [printGroups_none]
    obtain ⟨x0, x1, x2, x3, x4, x5, x6, x7, hx⟩ := eq_of_length_8 (groups ip) hgl
    rw [hx] at hglt ⊢
    have := parseIPScan_joinGroups s x0 [] (hglt x0 (by simp))
      (joinGroups [x1, x2, x3, x4, x5, x6, x7])
    simpa [joinGroups] using this
  · rw [he]
    simp only
    rw [printGroups_run ip a b hab hb8]
    cases hA : (groups ip).take a with
    | nil => simp [joinGroups, parseIPScan]
    | cons g gs =>
      have hg : g < 65536 :=
        hglt g (List.mem_of_mem_take (by rw [hA]; exact List.mem_cons_self _ _))
      exact parseIPScan_joinGroups s g gs hg _

/-- The text of a 4-byte address is read back as its 16-byte form. -/
theorem parseIP_string_4 (a b c d : Nat) (ha : a < 256) (hb : b < 256) (hc : c < 256)
    (hd : d < 256) : ParseIP (IP.String [a, b, c, d]) = IPv4 a b c d := by
  have : IP.String [a, b, c, d] = ⟨dotted a b c d⟩ := by
    simp [IP.String, IP.chars, IP.To4, IPv4len, dotted]
  rw [this, parseIP_dotted a b c d ha hb hc hd]

/-- The text of a 16-byte address is read back as the same address. -/
theorem parseIP_string_16 (ip : IP) (hlen : ip.length = 16) (hb : ∀ x ∈ ip, x < 256) :
    ParseIP (IP.String ip) = ip := by
  by_cases hto : (IP.To4 ip).length = IPv4len
  · -- an IPv4-mapped address, printed in dotted decimal
    obtain ⟨b0, b1, b2, b3, b4, b5, b6, b7, b8, b9, b10, b11, b12, b13, b14, b15, rfl⟩ := eq_of_length_16 ip hlen
    have hb' := hb
    simp only [List.mem_cons, List.mem_singleton, forall_eq_or_imp, forall_eq, List.not_mem_nil,
      false_implies, implies_true, and_true] at hb'
    obtain ⟨h0, h1, h2, h3, h4, h5, h6, h7, h8, h9, h10, h11, h12, h13, h14, h15⟩ := hb'
    have hcond : isZeros (List.take 10 [b0, b1, b2, b3, b4, b5, b6, b7, b8, b9, b10, b11, b12, b13, b14, b15]) = true ∧
        [b0, b1, b2, b3, b4, b5, b6, b7, b8, b9, b10, b11, b12, b13, b14, b15].getD 10 0 = 0xff ∧ [b0, b1, b2, b3, b4, b5, b6, b7, b8, b9, b10, b11, b12, b13, b14, b15].getD 11 0 = 0xff := by
      unfold IP.To4 at hto
      split at hto
      · rename_i h
        simp [IPv4len] at h
      · split at hto
        · rename_i h
          exact h.2
        · simp [IPv4len] at hto
    have hto4 : IP.To4 [b0, b1, b2, b3, b4, b5, b6, b7, b8, b9, b10, b11, b12, b13, b14, b15] = [b12, b13, b14, b15] := by
      unfold IP.To4
      rw [if_neg (by simp [IPv4len]), if_pos ⟨by simp [IPv6len], hcond⟩]
      rfl
    have hstr : IP.String [b0, b1, b2, b3, b4, b5, b6, b7, b8, b9, b10, b11, b12, b13, b14, b15] = ⟨dotted b12 b13 b14 b15⟩ := by
      simp [IP.String, IP.chars, hto4, IPv4len, dotted]
    rw [hstr, parseIP_dotted b12 b13 b14 b15 h12 h13 h14 h15]
    simp [isZeros] at hcond
    obtain ⟨⟨z0, z1, z2, z3, z4, z5, z6, z7, z8, z9⟩, z10, z11⟩ := hcond
    subst z0 z1 z2 z3 z4 z5 z6 z7 z8 z9 z10 z11
    rfl
  · have hne : ¬ ip.length = 0 := by omega
    have hstr : IP.String ip = ⟨printGroups ip (zeroRun ip).1 (zeroRun ip).2 8 0 []⟩ := by
      simp [IP.String, IP.chars, hto, hlen, IPv6len]
    rw [hstr]
    unfold ParseIP
    simp only
    rw [parseIPScan_printGroups ip hb, parseIPv6_printGroups ip hlen hb]

/-- The text of the absent address is read back as the absent address. -/
theorem parseIP_string_nil : ParseIP (IP.String []) = [] := by decide

/-- Address equality of an address with itself. -/
theorem equal_self (ip : IP) : IP.Equal ip ip = true := by
  simp [IP.Equal]

/-- Round trip through the text: for every valid address (4 or 16 bytes below
256) `ParseIP (ip.String())` is equal to `ip` under address equality. -/
theorem equal_parseIP_string (ip : IP) (hlen : ip.length = IPv4len ∨ ip.length = IPv6len)
    (hb : ∀ x ∈ ip, x < 256) : IP.Equal (ParseIP (IP.String ip)) ip = true := by
  rcases hlen with h | h
  · simp only [IPv4len] at h
    obtain ⟨a, b, c, d, rfl⟩ : ∃ a b c d, ip = [a, b, c, d] := by
      rcases ip with _ | ⟨a, _ | ⟨b, _ | ⟨c, _ | ⟨d, _ | ⟨e, tl⟩⟩⟩⟩⟩
      all_goals first
        | exact ⟨a, b, c, d, rfl⟩
        | (simp at h)
    simp only [List.mem_cons, List.mem_singleton, forall_eq_or_imp, forall_eq, List.not_mem_nil,
      false_implies, implies_true, and_true] at hb
    obtain ⟨ha, hb, hc, hd⟩ := hb
    rw [parseIP_string_4 a b c d ha hb hc hd]
    simp [IP.Equal, IPv4, v4InV6Prefix, IPv4len, IPv6len]
  · simp only [IPv6len] at h
    rw [parseIP_string_16 ip h hb]
    exact equal_self ip

/-! ## Lemmas: the addresses `ParseIP` returns -/

/-- Storing a byte keeps a 16-byte address one. -/
theorem IP16.set {ip : List Nat} (h : IP16 ip) (i v : Nat) (hv : v < 256) : IP16 (ip.set i v) := by
  refine ⟨by rw [List.length_set]; exact h.1, ?_⟩
  intro x hx
  rcases List.mem_or_eq_of_mem_set hx with hx | hx
  · exact h.2 x hx
  · rw [hx]; exact hv

/-- A fold of byte stores keeps a 16-byte address one. -/
theorem IP16.foldl (f : List Nat → Nat → List Nat) (hf : ∀ ip j, IP16 ip → IP16 (f ip j))
    (js : List Nat) : ∀ ip, IP16 ip → IP16 (js.foldl f ip) := by
  induction js with
  | nil => intro ip h; exact h
  | cons j js ih => intro ip h; exact ih _ (hf ip j h)

/-- Expanding the ellipsis keeps a 16-byte address one. -/
theorem IP16.expandEllipsis {ip : List Nat} (h : IP16 ip) (e i : Nat) :
    IP16 (expandEllipsis ip e i) := by
  unfold GoNet.expandEllipsis
  simp only
  apply IP16.foldl
  · intro ip j hip
    exact hip.set _ _ (by norm_num)
  · apply IP16.foldl
    · intro ip j hip
      exact hip.set _ _ (getD_lt ip hip.2 _)
    · exact h

/-- The function `IPv4` on four bytes gives a 16-byte address. -/
theorem IP16.IPv4 (a b c d : Nat) (ha : a < 256) (hb : b < 256) (hc : c < 256) (hd : d < 256) :
    IP16 (IPv4 a b c d) := by
  have : GoNet.IPv4 a b c d = [0, 0, 0, 0, 0, 0, 0, 0, 0, 0, 0xff, 0xff, a, b, c, d] := rfl
  rw [this]
  refine ⟨rfl, ?_⟩
  intro x hx
  simp only [List.mem_cons, List.mem_singleton, List.not_mem_nil, or_false] at hx
  rcases hx with h | h | h | h | h | h | h | h | h | h | h | h | h | h | h | h <;> omega

/-- The loop of `parseIPv4` stores bytes only. -/
theorem parseIPv4Loop_lt (k : Nat) :
    ∀ (i : Nat) (s : List Char) (p p2 : List Nat) (s2 : List Char),
      (∀ x ∈ p, x < 256) → parseIPv4Loop k i s p = some (p2, s2) → ∀ x ∈ p2, x < 256 := by
  induction k with
  | zero =>
    intro i s p p2 s2 hp h
    simp only [parseIPv4Loop, Option.some.injEq, Prod.mk.injEq] at h
    rw [← h.1]
    exact hp
  | succ k ih =>
    intro i s p p2 s2 hp h
    have hset : ∀ n : Nat, ∀ x ∈ p.set i (n % 256), x < 256 := by
      intro n x hx
      rcases List.mem_or_eq_of_mem_set hx with hx | hx
      · exact hp x hx
      · rw [hx]; exact Nat.mod_lt _ (by norm_num)
    unfold parseIPv4Loop at h
    split at h
    · exact absurd h (by simp)
    · split at h
      · exact absurd h (by simp)
      · dsimp only at h
        repeat' split at h
        all_goals first
          | exact ih _ _ _ p2 s2 (hset _) h
          | exact absurd h (by simp)

/-- The function `parseIPv4` returns `nil` or a 16-byte address. -/
theorem parseIPv4_valid (s : List Char) : NilOrIP16 (parseIPv4 s) := by
  unfold parseIPv4
  split
  · exact Or.inl rfl
  · rename_i p s2 h
    split
    · exact Or.inl rfl
    · right
      have hp := parseIPv4Loop_lt _ _ _ _ p s2 (by decide) h
      exact IP16.IPv4 _ _ _ _ (getD_lt p hp _) (getD_lt p hp _) (getD_lt p hp _)
        (getD_lt p hp _)

/-- The loop of `parseIPv6` keeps a 16-byte address one. -/
theorem parseIPv6Loop_valid (fuel : Nat) :
    ∀ st st2 : V6State, IP16 st.ip → parseIPv6Loop fuel st = some st2 → IP16 st2.ip := by
  induction fuel with
  | zero =>
    intro st st2 hst h
    simp only [parseIPv6Loop, Option.some.injEq] at h
    exact h ▸ hst
  | succ fuel ih =>
    intro st st2 hst h
    have hset : ∀ n : Nat, IP16 ((st.ip.set st.i ((n >>> 8) % 256)).set (st.i + 1) (n % 256)) :=
      fun n => (hst.set _ _ (Nat.mod_lt _ (by norm_num))).set _ _ (Nat.mod_lt _ (by norm_num))
    unfold parseIPv6Loop at h
    split at h
    · split at h
      rename_i n c ok hx
      split at h
      · exact absurd h (by simp)
      · split at h
        · split at h
          · exact absurd h (by simp)
          · split at h
            · exact absurd h (by simp)
            · simp only at h
              split at h
              · exact absurd h (by simp)
              · rename_i hne
                simp only [Option.some.injEq] at h
                rw [← h]
                have h4 : IP16 (parseIPv4 st.s) := by
                  rcases parseIPv4_valid st.s with h0 | h0
                  · rw [h0] at hne
                    exact absurd rfl hne
                  · exact h0
                exact (((hst.set _ _ (getD_lt _ h4.2 _)).set _ _ (getD_lt _ h4.2 _)).set _ _
                  (getD_lt _ h4.2 _)).set _ _ (getD_lt _ h4.2 _)
        · simp only at h
          split at h
          · simp only [Option.some.injEq] at h
            rw [← h]
            exact hset n
          · split at h
            · exact absurd h (by simp)
            · split at h
              · split at h
                · exact absurd h (by simp)
                · split at h
                  · simp only [Option.some.injEq] at h
                    rw [← h]
                    exact hset n
                  · exact ih _ st2 (hset n) h
              · exact ih _ st2 (hset n) h
    · simp only [Option.some.injEq] at h
      exact h ▸ hst

/-- The function `parseIPv6` returns `nil` or a 16-byte address. -/
theorem parseIPv6_valid (s : List Char) : NilOrIP16 (parseIPv6 s) := by
  have h0 : IP16 (List.replicate IPv6len 0) := by
    refine ⟨by simp [IPv6len], ?_⟩
    intro x hx
    rw [(List.mem_replicate.mp hx).2]
    norm_num
  have hpost : ∀ st : V6State, IP16 st.ip →
      NilOrIP16 (if st.s.length ≠ 0 then []
        else if st.i < IPv6len then
          if st.ellipsis < 0 then [] else GoNet.expandEllipsis st.ip st.ellipsis.toNat st.i
        else if st.ellipsis ≥ 0 then [] else st.ip) := by
    intro st hv
    split
    · exact Or.inl rfl
    · split
      · split
        · exact Or.inl rfl
        · exact Or.inr (hv.expandEllipsis _ _)
      · split
        · exact Or.inl rfl
        · exact Or.inr hv
  have hloop : ∀ st : V6State, IP16 st.ip →
      NilOrIP16 (match parseIPv6Loop 8 st with
        | none => []
        | some st =>
          if st.s.length ≠ 0 then []
          else if st.i < IPv6len then
            if st.ellipsis < 0 then [] else GoNet.expandEllipsis st.ip st.ellipsis.toNat st.i
          else if st.ellipsis ≥ 0 then [] else st.ip) := by
    intro st hv
    split
    · exact Or.inl rfl
    · rename_i st2 hst
      exact hpost st2 (parseIPv6Loop_valid _ _ st2 hv hst)
  unfold parseIPv6
  simp only
  generalize decide (s.length ≥ 2 ∧ s.getD 0 ' ' = ':' ∧ s.getD 1 ' ' = ':') = lead
  cases lead with
  | false =>
    simp only [Bool.false_eq_true, false_and, if_false]
    exact hloop _ h0
  | true =>
    simp only [true_and, if_true]
    split
    · exact Or.inr h0
    · exact hloop _ h0

/-- The function `ParseIP` returns `nil` or a 16-byte address. -/
theorem parseIP_valid (s : String) : ParseIP s = [] ∨ IP16 (ParseIP s) := by
  unfold ParseIP
  generalize s.data = t
  have : ∀ r : List Char, NilOrIP16 (parseIPScan t r) := by
    intro r
    induction r with
    | nil => exact Or.inl rfl
    | cons c cs ih =>
      unfold parseIPScan
      split
      · exact parseIPv4_valid t
      · split
        · exact parseIPv6_valid t
        · exact ih
  exact this t

/-- What `ParseIP` returns is read back unchanged from its text. -/
theorem parseIP_string_parseIP (s : String) : ParseIP (IP.String (ParseIP s)) = ParseIP s := by
  rcases parseIP_valid s with h | h
  · rw [h]
    decide
  · exact parseIP_string_16 _ h.1 h.2

/-- On the addresses `ParseIP` returns, address equality is equality. -/
theorem equal_parseIP_iff (s t : String) :
    IP.Equal (ParseIP s) (ParseIP t) = true ↔ ParseIP s = ParseIP t := by
  constructor
  · intro h
    unfold IP.Equal at h
    split at h
    · simpa using h
    · rename_i hlen
      rcases parseIP_valid s with h1 | h1 <;> rcases parseIP_valid t with h2 | h2
      · rw [h1, h2]
      · simp [h1, h2.1, IPv4len, IPv6len] at h
      · simp [h1.1, h2, IPv4len, IPv6len] at h
      · exact absurd (h1.1.trans h2.1.symm) hlen
  · intro h
    rw [h]
    simp [IP.Equal]

end GoNet

namespace Updater

open GoNet GoStrings

/-! ## Theorems: the DNS update client -/

/-- Only the file system matters to `getSavedIP`, not the trace. -/
theorem getSavedIP_congr (st st2 : Sys) (path : String) (h : st2.fs = st.fs) :
    getSavedIP st2 path = getSavedIP st path := by
  simp [getSavedIP, readFile, h]

/-- The result of `updateDDNS` given the answer of the network. -/
theorem updateDDNS_body (w : World) (c : Config) (ip : IP) (st : Sys) (body : String)
    (h : w.httpGet (updateQuery c ip) = .body body) :
    updateDDNS w c ip st =
      (if body = "success" then none
        else some ⟨"failed to update DDNS record: " ++ body, false⟩,
       ⟨st.fs, st.trace ++ [Effect.get (updateQuery c ip)]⟩) := by
  simp only [updateDDNS, httpGet, h]
  split <;> rfl

/-- C4: when the request and the body read succeed, `updateDDNS` returns no
error if and only if the body is exactly "success"; for any other body
(for instance "success\n" or "Success") the error message is
"failed to update DDNS record: " followed by the body verbatim. -/
theorem updateDDNS_success_iff (w : World) (c : Config) (ip : IP) (st : Sys) (body : String)
    (h : w.httpGet (updateQuery c ip) = .body body) :
    ((updateDDNS w c ip st).1 = none ↔ body = "success") ∧
    (body ≠ "success" →
      (updateDDNS w c ip st).1 = some ⟨"failed to update DDNS record: " ++ body, false⟩) ∧
    ((body = "success\n" ∨ body = "Success") → (updateDDNS w c ip st).1 ≠ none) := by
  rw [updateDDNS_body w c ip st body h]
  refine ⟨?_, ?_, ?_⟩
  · by_cases hb : body = "success" <;> simp [hb]
  · intro hb
    simp [hb]
  · rintro (hb | hb) <;> subst hb <;> simp

/-- C4 at a concrete world: the provider answers "error: bad id". -/
theorem updateDDNS_success_iff_witness :
    (((updateDDNS ⟨fun _ => .body "error: bad id", fun _ => none⟩
        ⟨0, "u", "p", "1", "ip.txt"⟩ [198, 51, 100, 9] ⟨fun _ => .missing, []⟩).1 = none ↔
      "error: bad id" = "success") ∧
    ("error: bad id" ≠ "success" →
      (updateDDNS ⟨fun _ => .body "error: bad id", fun _ => none⟩
        ⟨0, "u", "p", "1", "ip.txt"⟩ [198, 51, 100, 9] ⟨fun _ => .missing, []⟩).1 =
        some ⟨"failed to update DDNS record: " ++ "error: bad id", false⟩) ∧
    (("error: bad id" = "success\n" ∨ "error: bad id" = "Success") →
      (updateDDNS ⟨fun _ => .body "error: bad id", fun _ => none⟩
        ⟨0, "u", "p", "1", "ip.txt"⟩ [198, 51, 100, 9] ⟨fun _ => .missing, []⟩).1 ≠ none)) :=
  updateDDNS_success_iff ⟨fun _ => .body "error: bad id", fun _ => none⟩
    ⟨0, "u", "p", "1", "ip.txt"⟩ [198, 51, 100, 9] ⟨fun _ => .missing, []⟩ "error: bad id" rfl

/-! ## Theorems: the reconciliation cycle -/

/-- The cycle when the resolver answered and the cache could be read and the
two addresses are equal: nothing but the resolver request happens. -/
theorem run_equal (w : World) (c : Config) (st : Sys) (ipBody : String) (savedIP : IP)
    (hip : w.httpGet ipURL = .body ipBody)
    (hsaved : getSavedIP st c.CurrentIPFile = .ok savedIP)
    (heq : IP.Equal (ParseIP (TrimSpace ipBody)) savedIP = true) :
    run w c st = (none, ⟨st.fs, st.trace ++ [Effect.get ipURL]⟩) := by
  have h2 : getSavedIP ⟨st.fs, st.trace ++ [Effect.get ipURL]⟩ c.CurrentIPFile = .ok savedIP := by
    exact (getSavedIP_congr st ⟨st.fs, _⟩ _ rfl).trans hsaved
  simp [run, getPublicIP, httpGet, hip, h2, heq]

/-- The cycle when the resolver answered, the cache could be read, the two
addresses differ and the update request was answered with `body`. -/
theorem run_differ (w : World) (c : Config) (st : Sys) (ipBody body : String) (savedIP : IP)
    (hip : w.httpGet ipURL = .body ipBody)
    (hsaved : getSavedIP st c.CurrentIPFile = .ok savedIP)
    (hne : IP.Equal (ParseIP (TrimSpace ipBody)) savedIP = false)
    (hupd : w.httpGet (updateQuery c (ParseIP (TrimSpace ipBody))) = .body body) :
    run w c st =
      if body = "success" then
        ((saveIP w c (ParseIP (TrimSpace ipBody))
            ⟨st.fs, st.trace ++ [Effect.get ipURL] ++
              [Effect.get (updateQuery c (ParseIP (TrimSpace ipBody)))]⟩).1.map
          (fun err => ⟨"failed to save IP to disk. " ++ err.msg, false⟩),
         (saveIP w c (ParseIP (TrimSpace ipBody))
            ⟨st.fs, st.trace ++ [Effect.get ipURL] ++
              [Effect.get (updateQuery c (ParseIP (TrimSpace ipBody)))]⟩).2)
      else
        (some ⟨"failed to update DDNS record: " ++ body, false⟩,
          ⟨st.fs, st.trace ++ [Effect.get ipURL] ++
            [Effect.get (updateQuery c (ParseIP (TrimSpace ipBody)))]⟩) := by
  have h2 : getSavedIP ⟨st.fs, st.trace ++ [Effect.get ipURL]⟩ c.CurrentIPFile = .ok savedIP := by
    exact (getSavedIP_congr st ⟨st.fs, _⟩ _ rfl).trans hsaved
  simp only [run, getPublicIP, httpGet, hip, h2, hne, Bool.not_false, if_true]
  rw [updateDDNS_body w c _ _ body hupd]
  by_cases hb : body = "success"
  · simp only [hb, if_true]
    generalize saveIP w c _ _ = r
    obtain ⟨_ | err, s⟩ := r <;> rfl
  · simp only [hb, if_false]

/-- The requests of a concatenated trace. -/
theorem gets_append (xs ys : List Effect) : gets (xs ++ ys) = gets xs ++ gets ys := by
  induction xs with
  | nil => rfl
  | cons e es ih => cases e <;> simp [gets, ih]

/-- The writes of a concatenated trace. -/
theorem writes_append (xs ys : List Effect) : writes (xs ++ ys) = writes xs ++ writes ys := by
  induction xs with
  | nil => rfl
  | cons e es ih => cases e <;> simp [writes, ih]

/-- C1: when the current and the cached address differ and the update endpoint
answers with a body other than "success", `run` returns the error
"failed to update DDNS record: " followed by that body (so the message contains
the body), `saveIP` is not invoked (the trace gains two requests and no write)
and the file system, hence the cache file, is what it was before. -/
theorem run_failure_isolation (w : World) (c : Config) (st : Sys) (ipBody body : String)
    (savedIP : IP)
    (hip : w.httpGet ipURL = .body ipBody)
    (hsaved : getSavedIP st c.CurrentIPFile = .ok savedIP)
    (hne : IP.Equal (ParseIP (TrimSpace ipBody)) savedIP = false)
    (hupd : w.httpGet (updateQuery c (ParseIP (TrimSpace ipBody))) = .body body)
    (hbody : body ≠ "success") :
    (∃ err, (run w c st).1 = some err ∧ ∃ pre post, err.msg = pre ++ body ++ post) ∧
    (run w c st).1 = some ⟨"failed to update DDNS record: " ++ body, false⟩ ∧
    writes (run w c st).2.trace = writes st.trace ∧
    (run w c st).2.fs = st.fs ∧
    (run w c st).2.fs c.CurrentIPFile = st.fs c.CurrentIPFile := by
  rw [run_differ w c st ipBody body savedIP hip hsaved hne hupd]
  rw [if_neg hbody]
  refine ⟨⟨_, rfl, "failed to update DDNS record: ", "", ?_⟩, rfl, ?_, rfl, rfl⟩
  · simp
  · simp [writes_append, writes]

/-! ### The scenarios of the specification -/

/-- C1 on the scenario "provider rejects": cache `203.0.113.5`, resolver
`198.51.100.9`, endpoint answers "error: bad id". -/
theorem run_failure_isolation_witness :
    (run (scenarioWorld "198.51.100.9" "error: bad id") scenarioConfig ⟨scenarioFS, []⟩).1 =
      some ⟨"failed to update DDNS record: " ++ "error: bad id", false⟩ ∧
    (run (scenarioWorld "198.51.100.9" "error: bad id") scenarioConfig ⟨scenarioFS, []⟩).2.fs
      scenarioConfig.CurrentIPFile = .content "203.0.113.5\n" :=
  have h := run_failure_isolation (scenarioWorld "198.51.100.9" "error: bad id") scenarioConfig
    ⟨scenarioFS, []⟩ "198.51.100.9" "error: bad id" (ParseIP (TrimSpace "203.0.113.5\n"))
    (by decide) (by rfl) (by decide) (by decide) (by decide)
  ⟨h.2.1, h.2.2.2.2⟩

/-- When the addresses differ, exactly one update request follows the resolver
request, whatever the network answers. -/
theorem run_differ_gets (w : World) (c : Config) (st : Sys) (ipBody : String) (savedIP : IP)
    (hip : w.httpGet ipURL = .body ipBody)
    (hsaved : getSavedIP st c.CurrentIPFile = .ok savedIP)
    (hne : IP.Equal (ParseIP (TrimSpace ipBody)) savedIP = false) :
    gets (run w c st).2.trace =
      gets st.trace ++ [ipURL, updateQuery c (ParseIP (TrimSpace ipBody))] := by
  have h2 : getSavedIP ⟨st.fs, st.trace ++ [Effect.get ipURL]⟩ c.CurrentIPFile = .ok savedIP := by
    exact (getSavedIP_congr st ⟨st.fs, _⟩ _ rfl).trans hsaved
  simp only [run, getPublicIP, httpGet, hip, h2, hne, Bool.not_false, if_true, updateDDNS]
  cases hq : w.httpGet (updateQuery c (ParseIP (TrimSpace ipBody))) with
  | getFailed err => simp [gets_append, gets]
  | readFailed err => simp [gets_append, gets]
  | body b =>
    by_cases hb : b = "success"
    · simp only [hb, if_true, saveIP, writeFile]
      cases hw : w.writeFault c.CurrentIPFile with
      | none => simp [gets_append, gets]
      | some p => simp [gets_append, gets]
    · simp [hb, gets_append, gets]

/-- When the addresses differ and the provider answers "success", the cycle
ends with the call of `saveIP`. -/
theorem run_differ_success (w : World) (c : Config) (st : Sys) (ipBody : String) (savedIP : IP)
    (hip : w.httpGet ipURL = .body ipBody)
    (hsaved : getSavedIP st c.CurrentIPFile = .ok savedIP)
    (hne : IP.Equal (ParseIP (TrimSpace ipBody)) savedIP = false)
    (hupd : w.httpGet (updateQuery c (ParseIP (TrimSpace ipBody))) = .body "success") :
    writes (run w c st).2.trace =
      writes st.trace ++
        [(c.CurrentIPFile, IP.String (ParseIP (TrimSpace ipBody)) ++ "\n")] ∧
    (w.writeFault c.CurrentIPFile = none →
      (run w c st).1 = none ∧
      (run w c st).2.fs c.CurrentIPFile =
        .content (IP.String (ParseIP (TrimSpace ipBody)) ++ "\n")) := by
  rw [run_differ w c st ipBody "success" savedIP hip hsaved hne hupd]
  simp only [if_true, saveIP, writeFile]
  cases hw : w.writeFault c.CurrentIPFile with
  | none => simp [writes_append, writes]
  | some p => simp [writes_append, writes]

/-- C3: when the cached address `A` and the current address `B` differ, `run`
issues exactly one update request (after the resolver request) and its URL ends
in `&ip=` followed by the canonical string of `B`; if the body of the answer is
"success" and the write succeeds, `run` returns no error and the cache file
holds exactly the canonical string of `B` followed by one newline. -/
theorem run_change_detection (w : World) (c : Config) (st : Sys) (ipBody : String) (A B : IP)
    (hip : w.httpGet ipURL = .body ipBody)
    (hB : ParseIP (TrimSpace ipBody) = B)
    (hsaved : getSavedIP st c.CurrentIPFile = .ok A)
    (hne : IP.Equal B A = false) :
    gets (run w c st).2.trace = gets st.trace ++ [ipURL, updateQuery c B] ∧
    (∃ pre, updateQuery c B = pre ++ "&ip=" ++ IP.String B) ∧
    (w.httpGet (updateQuery c B) = .body "success" → w.writeFault c.CurrentIPFile = none →
      (run w c st).1 = none ∧
      (run w c st).2.fs c.CurrentIPFile = .content (IP.String B ++ "\n")) := by
  subst hB
  refine ⟨run_differ_gets w c st ipBody A hip hsaved hne, ⟨_, rfl⟩, ?_⟩
  intro hupd hw
  exact (run_differ_success w c st ipBody A hip hsaved hne hupd).2 hw

/-- C3 on the scenario "IP change": cache `203.0.113.5`, resolver
`198.51.100.9`, endpoint answers "success". -/
theorem run_change_detection_witness :
    gets (run (scenarioWorld "198.51.100.9" "success") scenarioConfig ⟨scenarioFS, []⟩).2.trace =
      gets [] ++ [ipURL, updateQuery scenarioConfig (ParseIP "198.51.100.9")] ∧
    (run (scenarioWorld "198.51.100.9" "success") scenarioConfig ⟨scenarioFS, []⟩).1 = none ∧
    (run (scenarioWorld "198.51.100.9" "success") scenarioConfig ⟨scenarioFS, []⟩).2.fs
      scenarioConfig.CurrentIPFile = .content (IP.String (ParseIP "198.51.100.9") ++ "\n") ∧
    IP.String (ParseIP "198.51.100.9") ++ "\n" = "198.51.100.9\n" :=
  have h := run_change_detection (scenarioWorld "198.51.100.9" "success") scenarioConfig
    ⟨scenarioFS, []⟩ "198.51.100.9" (ParseIP (TrimSpace "203.0.113.5\n")) (ParseIP "198.51.100.9")
    (by decide) (by decide) (by rfl) (by decide)
  ⟨h.1, (h.2.2 (by decide) (by decide)).1, (h.2.2 (by decide) (by decide)).2, by decide⟩

/-- C5: when the cache file does not exist `getSavedIP` returns the absent
address without error, any read error that is not "not exist" is returned; a
valid address is never equal to the absent one, so on a first run with a valid
current address `run` issues the update request and, when the provider answers
"success", calls `saveIP` with that address. -/
theorem first_run (w : World) (c : Config) (st : Sys) (ipBody : String) :
    (∀ path, st.fs path = .missing → getSavedIP st path = .ok []) ∧
    (∀ path err, readFile st path = .error err → err.notExist = false →
      getSavedIP st path = .error err) ∧
    (∀ ip : IP, IPValid ip → IP.Equal ip [] = false) ∧
    (st.fs c.CurrentIPFile = .missing → w.httpGet ipURL = .body ipBody →
      IPValid (ParseIP (TrimSpace ipBody)) →
      gets (run w c st).2.trace =
        gets st.trace ++ [ipURL, updateQuery c (ParseIP (TrimSpace ipBody))] ∧
      (w.httpGet (updateQuery c (ParseIP (TrimSpace ipBody))) = .body "success" →
        writes (run w c st).2.trace =
          writes st.trace ++
            [(c.CurrentIPFile, IP.String (ParseIP (TrimSpace ipBody)) ++ "\n")] ∧
        (w.writeFault c.CurrentIPFile = none →
          (run w c st).1 = none ∧
          (run w c st).2.fs c.CurrentIPFile =
            .content (IP.String (ParseIP (TrimSpace ipBody)) ++ "\n")))) := by
  have hmiss : ∀ path, st.fs path = .missing → getSavedIP st path = .ok [] := by
    intro path h
    simp only [getSavedIP, readFile, h]
    rfl
  have hdiff : ∀ ip : IP, IPValid ip → IP.Equal ip [] = false := by
    intro ip hv
    rcases hv.1 with h | h <;> simp [IP.Equal, h, IPv4len, IPv6len]
  refine ⟨hmiss, ?_, hdiff, ?_⟩
  · intro path err h hne
    simp [getSavedIP, h, hne]
  · intro hfile hip hv
    have hsaved := hmiss _ hfile
    have hne := hdiff _ hv
    exact ⟨run_differ_gets w c st ipBody [] hip hsaved hne,
      fun hupd => run_differ_success w c st ipBody [] hip hsaved hne hupd⟩

/-- C5 on a first run: no cache file, resolver `198.51.100.9`, endpoint
answers "success". -/
theorem first_run_witness :
    getSavedIP ⟨fun _ => .missing, []⟩ "current-ip" = .ok [] ∧
    (run (scenarioWorld "198.51.100.9" "success") scenarioConfig ⟨fun _ => .missing, []⟩).1 =
      none ∧
    (run (scenarioWorld "198.51.100.9" "success") scenarioConfig
      ⟨fun _ => .missing, []⟩).2.fs scenarioConfig.CurrentIPFile =
      .content (IP.String (ParseIP (TrimSpace "198.51.100.9")) ++ "\n") :=
  have h := first_run (scenarioWorld "198.51.100.9" "success") scenarioConfig
    ⟨fun _ => .missing, []⟩ "198.51.100.9"
  ⟨h.1 "current-ip" rfl,
    ((h.2.2.2 rfl (by decide) ⟨by decide, by decide⟩).2 (by decide)).2 (by decide)⟩

/-! ## Theorems: the update request -/

/-- The URL requested by `updateDDNS` for any configuration and address: the
endpoint is followed by two question marks, the constant `updateURL` ending in
one and the format string starting with another. -/
theorem updateQuery_eq (c : Config) (ip : IP) :
    updateQuery c ip =
      "https://cp.dnsmadeeasy.com/servlet/updateip" ++ "??username=" ++ c.Username ++
        "&password=" ++ c.Password ++ "&id=" ++ c.RecordID ++ "&ip=" ++ IP.String ip := by
  simp only [updateQuery, updateURL, String.append_assoc]
  rfl

/-- C7, evaluated: for user `user`, password `secret`, record `1234` and the
address 198.51.100.9 the requested URL has `??` after the endpoint, so its
query string is `?username=user&...` and the first parameter is not named
`username`. -/
theorem updateQuery_double_question_mark :
    updateQuery scenarioConfig [198, 51, 100, 9] =
      "https://cp.dnsmadeeasy.com/servlet/updateip??username=user&password=secret&id=1234&ip=198.51.100.9" ∧
    updateQuery scenarioConfig [198, 51, 100, 9] ≠
      "https://cp.dnsmadeeasy.com/servlet/updateip?username=user&password=secret&id=1234&ip=198.51.100.9" := by
  constructor <;> decide

/-! ## Theorems: configuration -/

/-- The errors of `validate` number one per empty field. -/
theorem validateErrs_length (c : Config) : c.validateErrs.length = emptyFields c := by
  unfold Config.validateErrs emptyFields
  by_cases h1 : c.Username = "" <;> by_cases h2 : c.Password = "" <;>
    by_cases h3 : c.RecordID = "" <;> by_cases h4 : c.CurrentIPFile = "" <;>
    simp [h1, h2, h3, h4]

/-- The method `validate` accepts exactly the records with four non-empty fields. -/
theorem validate_none_iff (c : Config) :
    c.validate = none ↔
      c.Username ≠ "" ∧ c.Password ≠ "" ∧ c.RecordID ≠ "" ∧ c.CurrentIPFile ≠ "" := by
  unfold Config.validate errorsErr
  rw [validateErrs_length]
  unfold emptyFields
  by_cases h1 : c.Username = "" <;> by_cases h2 : c.Password = "" <;>
    by_cases h3 : c.RecordID = "" <;> by_cases h4 : c.CurrentIPFile = "" <;>
    simp [h1, h2, h3, h4]

/-- The tail of `parseConfig` returns a configuration without error only when
the interval is 0 or at least 10 s and the four fields are non-empty. -/
theorem parseConfigFinish_returned (f : Flags) (c0 c : Config)
    (h : parseConfigFinish f c0 = .returned c none) :
    (c.Interval = 0 ∨ c.Interval ≥ 10 * second) ∧ c.validate = none := by
  unfold parseConfigFinish at h
  split at h
  · exact absurd h (by simp)
  · rename_i hint
    simp only [ParseOutcome.returned.injEq] at h
    obtain ⟨hc, hv⟩ := h
    have hI : c.Interval = c0.Interval := by
      rw [← hc]
      by_cases h1 : f.username = "" <;> by_cases h2 : f.password = "" <;>
        by_cases h3 : f.recordID = "" <;> by_cases h4 : f.currentIPFile = "" <;>
        simp [h1, h2, h3, h4]
    constructor
    · rw [hI]
      by_cases h0 : c0.Interval = 0
      · exact Or.inl h0
      · right
        by_contra hlt
        exact hint ⟨h0, lt_of_not_ge hlt⟩
    · rw [← hc]
      cases hval : Config.validate _ with
      | none => rfl
      | some es => rw [hval] at hv; simp at hv

/-- The middle of `parseConfig` has the same property. -/
theorem parseConfigInterval_returned (env : ConfigEnv) (f : Flags) (c0 c : Config)
    (h : parseConfigInterval env f c0 = .returned c none) :
    (c.Interval = 0 ∨ c.Interval ≥ 10 * second) ∧ c.validate = none := by
  unfold parseConfigInterval at h
  split at h
  · split at h
    · exact absurd h (by simp)
    · exact parseConfigFinish_returned f _ c h
  · exact parseConfigFinish_returned f _ c h

/-- The function `parseConfig` has the same property. -/
theorem parseConfig_returned (env : ConfigEnv) (f : Flags) (c : Config)
    (h : parseConfig env f = .returned c none) :
    (c.Interval = 0 ∨ c.Interval ≥ 10 * second) ∧ c.validate = none := by
  unfold parseConfig at h
  simp only at h
  split at h
  · split at h
    · exact absurd h (by simp)
    · split at h
      · exact absurd h (by simp)
      · exact parseConfigInterval_returned env f _ c h
  · exact parseConfigInterval_returned env f _ c h

/-- C8: `validate` returns no error exactly when username, password, record-id
and current-ip-file are all non-empty, and otherwise reports one error per
empty field; an interval given on the command line that is non-zero and below
10 s (negative ones included) is fatal, and so is such an interval read from
the configuration file; and every configuration with which
`main` reaches the loop has four non-empty fields and an interval that is 0 or
at least 10 s. -/
theorem config_validation (env : ConfigEnv) (f : Flags) (c : Config) :
    (c.validate = none ↔
      c.Username ≠ "" ∧ c.Password ≠ "" ∧ c.RecordID ≠ "" ∧ c.CurrentIPFile ≠ "") ∧
    (∀ errs, c.validate = some errs → errs.length = emptyFields c ∧ 0 < emptyFields c) ∧
    (∀ d : Int, f.configFile = "" → f.interval ≠ "" → env.parseDuration f.interval = .ok d →
      d ≠ 0 → d < 10 * second → parseConfig env f = .fatal d) ∧
    (∀ content c1, f.configFile ≠ "" → env.readFile f.configFile = .ok content →
      env.yamlUnmarshal content ⟨0, "", "", "", ""⟩ = (c1, none) → f.interval = "" →
      c1.Interval ≠ 0 → c1.Interval < 10 * second → parseConfig env f = .fatal c1.Interval) ∧
    (mainConfig env f = some c →
      c.Username ≠ "" ∧ c.Password ≠ "" ∧ c.RecordID ≠ "" ∧ c.CurrentIPFile ≠ "" ∧
      (c.Interval = 0 ∨ c.Interval ≥ 10 * second)) := by
  refine ⟨validate_none_iff c, ?_, ?_, ?_, ?_⟩
  · intro errs h
    unfold Config.validate errorsErr at h
    split at h
    · exact absurd h (by simp)
    · rename_i hlen
      simp only [Option.some.injEq] at h
      subst h
      rw [validateErrs_length] at hlen ⊢
      exact ⟨rfl, Nat.pos_of_ne_zero hlen⟩
  · intro d hcf hfi hd h0 hlt
    simp [parseConfig, hcf, parseConfigInterval, hfi, hd, parseConfigFinish, h0, hlt]
  · intro content c1 hcf hrd hy hfi h0 hlt
    simp [parseConfig, hcf, hrd, hy, parseConfigInterval, hfi, parseConfigFinish, h0, hlt]
  · intro h
    unfold mainConfig at h
    split at h
    · exact absurd h (by simp)
    · exact absurd h (by simp)
    · rename_i c2 hpc
      simp only [Option.some.injEq] at h
      subst h
      obtain ⟨hI, hv⟩ := parseConfig_returned env f _ hpc
      obtain ⟨a, b, d, e⟩ := (validate_none_iff _).mp hv
      exact ⟨a, b, d, e, hI⟩

/-! ## Theorems: the lifecycle -/

/-- Every action preserves the invariant of interval mode. -/
theorem step_intervalInv (interval : Int) (hpos : 0 < interval) (s t : Proc) (a : Action)
    (hs : IntervalInv s) (h : step interval s a = some t) : IntervalInv t := by
  obtain ⟨pc, tickNil, doneClosed, sigBuf, onceDone, runs, closes, panicked⟩ := s
  obtain ⟨h1, h2, h3⟩ := hs
  simp only at h1 h2 h3
  subst h1 h2
  unfold step at h
  split at h
  · exact absurd h (by simp)
  · cases a with
    | setup =>
      simp only [hpos, if_true] at h
      split at h
      · simp only [Option.some.injEq] at h
        subst h
        exact ⟨rfl, rfl, h3⟩
      · exact absurd h (by simp)
    | callRun =>
      simp only at h
      split at h
      · simp only [Option.some.injEq] at h
        subst h
        exact ⟨rfl, rfl, h3⟩
      · exact absurd h (by simp)
    | runReturns ok =>
      simp only at h
      split at h
      · simp only [Option.some.injEq] at h
        subst h
        exact ⟨rfl, rfl, h3⟩
      · exact absurd h (by simp)
    | tick =>
      simp only at h
      split at h
      · simp only [Option.some.injEq] at h
        subst h
        exact ⟨rfl, rfl, h3⟩
      · exact absurd h (by simp)
    | done =>
      simp only at h
      split at h
      · simp only [Option.some.injEq] at h
        subst h
        exact ⟨rfl, rfl, h3⟩
      · exact absurd h (by simp)
    | signal =>
      simp only at h
      split at h
      · simp only [Option.some.injEq] at h
        subst h
        exact ⟨rfl, rfl, h3⟩
      · exact absurd h (by simp)
    | handle =>
      simp only at h
      split at h
      · cases doneClosed with
        | true =>
          simp only [if_true, Option.some.injEq] at h
          subst h
          exact ⟨rfl, rfl, h3⟩
        | false =>
          simp only [Bool.false_eq_true, if_false, closeDone, Option.some.injEq] at h
          subst h
          simp only [Bool.false_eq_true, if_false] at h3
          simp [IntervalInv, h3]
      · exact absurd h (by simp)

/-- Every schedule preserves the invariant of interval mode. -/
theorem exec_intervalInv (interval : Int) (hpos : 0 < interval) (acts : List Action) :
    ∀ s t : Proc, IntervalInv s → exec interval s acts = some t → IntervalInv t := by
  induction acts with
  | nil =>
    intro s t hs h
    simp only [exec, Option.some.injEq] at h
    exact h ▸ hs
  | cons a as ih =>
    intro s t hs h
    simp only [exec] at h
    split at h
    · exact absurd h (by simp)
    · rename_i s1 hstep
      exact ih s1 t (step_intervalInv interval hpos s s1 a hs hstep) h

/-- In interval mode the channel `done` is closed at most once and the process
never panics, whatever the number and timing of the signals. -/
theorem interval_mode_closes_once (interval : Int) (hpos : 0 < interval) (acts : List Action)
    (s : Proc) (h : exec interval Proc.init acts = some s) :
    s.closes ≤ 1 ∧ s.panicked = false := by
  obtain ⟨h1, _, h3⟩ := exec_intervalInv interval hpos acts Proc.init s ⟨rfl, rfl, rfl⟩ h
  refine ⟨?_, h1⟩
  rw [h3]
  split <;> omega

/-- C9, evaluated: in single-shot mode (interval 0) `main` closes `done`
itself; one interrupt signal then makes the handler goroutine execute
`close(done)` a second time, on the closed channel, and the process panics. -/
theorem done_closed_twice :
    exec 0 Proc.init [.setup, .signal, .handle] =
      some ⟨.loop, true, true, 0, true, 0, 2, true⟩ ∧
    exec 0 Proc.init [.setup, .callRun, .signal, .handle] =
      some ⟨.running, true, true, 0, true, 1, 2, true⟩ := by
  constructor <;> decide

/-- Closing `done` leaves it closed. -/
theorem closeDone_doneClosed (s : Proc) : (closeDone s).doneClosed = true := by
  unfold closeDone
  split
  · assumption
  · rfl

/-- Closing `done` changes neither the position of main nor the tick channel
nor the number of runs. -/
theorem closeDone_frame (s : Proc) :
    (closeDone s).pc = s.pc ∧ (closeDone s).tickNil = s.tickNil ∧
      (closeDone s).runs = s.runs := by
  unfold closeDone
  split <;> exact ⟨rfl, rfl, rfl⟩

/-- Every action preserves the invariant of single-shot mode. -/
theorem step_singleShotInv (s t : Proc) (a : Action)
    (hs : SingleShotInv s) (h : step 0 s a = some t) : SingleShotInv t := by
  obtain ⟨h1, h2, h3⟩ := hs
  unfold step at h
  split at h
  · exact absurd h (by simp)
  · cases a with
    | setup =>
      simp only [lt_irrefl, if_false] at h
      split at h
      · rename_i hpc
        simp only [Option.some.injEq] at h
        subst h
        refine ⟨?_, ?_, ?_⟩
        · simpa [(closeDone_frame s).2.1] using h1
        · intro _
          exact closeDone_doneClosed s
        · simp only [(closeDone_frame s).2.2, h3, hpc]
          simp
      · exact absurd h (by simp)
    | callRun =>
      simp only at h
      split at h
      · simp only [Option.some.injEq] at h
        subst h
        rename_i hpc
        refine ⟨h1, fun _ => h2 (by simp [hpc]), ?_⟩
        simp [h3, hpc]
      · exact absurd h (by simp)
    | runReturns ok =>
      simp only at h
      split at h
      · simp only [Option.some.injEq] at h
        subst h
        rename_i hpc
        refine ⟨h1, fun _ => h2 (by simp [hpc]), ?_⟩
        cases ok <;> simp [h3, hpc]
      · exact absurd h (by simp)
    | tick =>
      simp only at h
      split at h
      · rename_i hpc
        rw [h1] at hpc
        exact absurd hpc.2 (by simp)
      · exact absurd h (by simp)
    | done =>
      simp only at h
      split at h
      · simp only [Option.some.injEq] at h
        subst h
        rename_i hpc
        refine ⟨h1, fun _ => hpc.2, ?_⟩
        simp [h3, hpc.1]
      · exact absurd h (by simp)
    | signal =>
      simp only at h
      split at h
      · simp only [Option.some.injEq] at h
        subst h
        exact ⟨h1, h2, h3⟩
      · exact absurd h (by simp)
    | handle =>
      simp only at h
      split at h
      · split at h
        · simp only [Option.some.injEq] at h
          subst h
          exact ⟨h1, h2, h3⟩
        · simp only [Option.some.injEq] at h
          subst h
          refine ⟨?_, fun _ => closeDone_doneClosed _, ?_⟩
          · rw [(closeDone_frame _).2.1]
            exact h1
          · rw [(closeDone_frame _).2.2, (closeDone_frame _).1]
            exact h3
      · exact absurd h (by simp)

/-- Every schedule preserves the invariant of single-shot mode. -/
theorem exec_singleShotInv (acts : List Action) :
    ∀ s t : Proc, SingleShotInv s → exec 0 s acts = some t → SingleShotInv t := by
  induction acts with
  | nil =>
    intro s t hs h
    simp only [exec, Option.some.injEq] at h
    exact h ▸ hs
  | cons a as ih =>
    intro s t hs h
    simp only [exec] at h
    split at h
    · exact absurd h (by simp)
    · rename_i s1 hstep
      exact ih s1 t (step_singleShotInv s s1 a hs hstep) h

/-- In single-shot mode every step of the main goroutine advances it, and the
other actions leave it where it is. -/
theorem step_rank (s t : Proc) (a : Action) (hs : SingleShotInv s)
    (h : step 0 s a = some t) : t.pc.rank = s.pc.rank + if a.isMain then 1 else 0 := by
  obtain ⟨h1, _, _⟩ := hs
  unfold step at h
  split at h
  · exact absurd h (by simp)
  · cases a with
    | setup =>
      simp only [lt_irrefl, if_false] at h
      split at h
      · rename_i hpc
        simp only [Option.some.injEq] at h
        subst h
        simp [hpc, PC.rank, Action.isMain]
      · exact absurd h (by simp)
    | callRun =>
      simp only at h
      split at h
      · rename_i hpc
        simp only [Option.some.injEq] at h
        subst h
        simp [hpc, PC.rank, Action.isMain]
      · exact absurd h (by simp)
    | runReturns ok =>
      simp only at h
      split at h
      · rename_i hpc
        simp only [Option.some.injEq] at h
        subst h
        cases ok <;> simp [hpc, PC.rank, Action.isMain]
      · exact absurd h (by simp)
    | tick =>
      simp only at h
      split at h
      · rename_i hpc
        rw [h1] at hpc
        exact absurd hpc.2 (by simp)
      · exact absurd h (by simp)
    | done =>
      simp only at h
      split at h
      · rename_i hpc
        simp only [Option.some.injEq] at h
        subst h
        simp [hpc.1, PC.rank, Action.isMain]
      · exact absurd h (by simp)
    | signal =>
      simp only at h
      split at h
      · simp only [Option.some.injEq] at h
        subst h
        simp [Action.isMain]
      · exact absurd h (by simp)
    | handle =>
      simp only at h
      split at h
      · split at h
        · simp only [Option.some.injEq] at h
          subst h
          simp [Action.isMain]
        · simp only [Option.some.injEq] at h
          subst h
          simp [Action.isMain, (closeDone_frame _).1]
      · exact absurd h (by simp)

/-- In single-shot mode the main goroutine has advanced by the number of its
steps in the schedule. -/
theorem exec_rank (acts : List Action) :
    ∀ s t : Proc, SingleShotInv s → exec 0 s acts = some t →
      t.pc.rank = s.pc.rank + (acts.filter Action.isMain).length := by
  induction acts with
  | nil =>
    intro s t _ h
    simp only [exec, Option.some.injEq] at h
    simp [h]
  | cons a as ih =>
    intro s t hs h
    simp only [exec] at h
    split at h
    · exact absurd h (by simp)
    · rename_i s1 hstep
      rw [ih s1 t (step_singleShotInv s s1 a hs hstep) h, step_rank s s1 a hs hstep]
      cases hm : a.isMain <;> simp [List.filter, hm]
      omega

/-- The loop of `main` with interval 0: in every state the process can reach
`run` has been called at most once, and exactly once when `main` has returned
or died of `log.Fatal`, after which no action is taken, so no second cycle
follows; the tick case of the `select` is never enabled; in a process that has
not panicked, after a successful cycle the `select` takes `done` and `main`
returns, after a failed one the process is dead at once; the main goroutine of
a live process is never blocked and takes at most four steps (setup, the call,
its return, the `select`).  Both ends are reached. -/
theorem main_loop_single_shot (acts : List Action) (s : Proc) (h : exec 0 Proc.init acts = some s) :
    s.runs ≤ 1 ∧
    ((s.pc = .returned ∨ s.pc = .fatal) → s.runs = 1 ∧ ∀ a, step 0 s a = none) ∧
    step 0 s .tick = none ∧
    (s.pc = .waiting → s.panicked = false →
      step 0 s .done = some { s with pc := .returned } ∧ step 0 s .callRun = none) ∧
    (s.pc = .running → s.panicked = false →
      step 0 s (.runReturns true) = some { s with pc := .waiting } ∧
      step 0 s (.runReturns false) = some { s with pc := .fatal }) ∧
    (s.alive = true → ∃ a t, a.isMain = true ∧ step 0 s a = some t) ∧
    (acts.filter Action.isMain).length ≤ 4 ∧
    exec 0 Proc.init [.setup, .callRun, .runReturns true, .done] =
      some ⟨.returned, true, true, 0, false, 1, 1, false⟩ ∧
    exec 0 Proc.init [.setup, .callRun, .runReturns false] =
      some ⟨.fatal, true, true, 0, false, 1, 1, false⟩ := by
  have hinit : SingleShotInv Proc.init := ⟨rfl, fun h => absurd rfl h, rfl⟩
  obtain ⟨h1, h2, h3⟩ := exec_singleShotInv acts Proc.init s hinit h
  have hrank := exec_rank acts Proc.init s hinit h
  refine ⟨?_, ?_, ?_, ?_, ?_, ?_, ?_, by decide, by decide⟩
  · rw [h3]
    split <;> omega
  · intro hpc
    constructor
    · rw [h3]
      rcases hpc with hpc | hpc <;> simp [hpc]
    · intro a
      unfold step
      rcases hpc with hpc | hpc <;> simp [Proc.alive, hpc]
  · unfold step
    split
    · rfl
    · simp [h1]
  · intro hpc hp
    have hd := h2 (by simp [hpc])
    constructor
    · simp [step, Proc.alive, hpc, hp, hd]
    · simp [step, Proc.alive, hpc, hp]
  · intro hpc hp
    constructor <;> simp [step, Proc.alive, hpc, hp]
  · intro hal
    have hal2 : (!s.alive) = false := by simp [hal]
    cases hpc : s.pc with
    | start => exact ⟨.setup, _, rfl, by simp [step, hal2, hpc]; rfl⟩
    | loop => exact ⟨.callRun, _, rfl, by simp [step, hal2, hpc]; rfl⟩
    | running => exact ⟨.runReturns true, _, rfl, by simp [step, hal2, hpc]; rfl⟩
    | waiting =>
      have hd := h2 (by simp [hpc])
      exact ⟨.done, _, rfl, by simp [step, hal2, hpc, hd]; rfl⟩
    | returned => simp [Proc.alive, hpc] at hal
    | fatal => simp [Proc.alive, hpc] at hal
  · have : s.pc.rank ≤ 4 := by cases s.pc <;> simp [PC.rank]
    have h0 : Proc.init.pc.rank = 0 := rfl
    rw [h0] at hrank
    omega

/-- The loop of `main` with interval 0 on the schedule of a successful single
cycle during which one interrupt arrives and stays in the buffer. -/
theorem main_loop_single_shot_example :
    exec 0 Proc.init [.setup, .callRun, .signal, .runReturns true, .done] =
      some ⟨.returned, true, true, 1, false, 1, 1, false⟩ ∧
    (⟨.returned, true, true, 1, false, 1, 1, false⟩ : Proc).runs = 1 ∧
    ∀ a, step 0 ⟨.returned, true, true, 1, false, 1, 1, false⟩ a = none :=
  ⟨by decide,
    (main_loop_single_shot [.setup, .callRun, .signal, .runReturns true, .done]
      ⟨.returned, true, true, 1, false, 1, 1, false⟩ (by decide)).2.1 (Or.inl rfl)⟩

/-- C10, evaluated: with interval 0 an interrupt that the handler goroutine
receives kills the process by the panic of closing the closed `done`.  When it
is received before `main` calls `run`, the process is dead with `run` never
invoked; when it is received during the only cycle, the process is dead with
`run` invoked once and never returned.  In both dead states no action is
enabled, so `main` neither returns nor reaches `log.Fatal`. -/
theorem single_shot_interrupted :
    (exec 0 Proc.init [.setup, .signal, .handle] =
        some ⟨.loop, true, true, 0, true, 0, 2, true⟩ ∧
      (⟨.loop, true, true, 0, true, 0, 2, true⟩ : Proc).runs = 0 ∧
      ∀ a, step 0 ⟨.loop, true, true, 0, true, 0, 2, true⟩ a = none) ∧
    (exec 0 Proc.init [.setup, .callRun, .signal, .handle] =
        some ⟨.running, true, true, 0, true, 1, 2, true⟩ ∧
      (∀ ok, step 0 ⟨.running, true, true, 0, true, 1, 2, true⟩ (.runReturns ok) = none) ∧
      ∀ a, step 0 ⟨.running, true, true, 0, true, 1, 2, true⟩ a = none) := by
  refine ⟨⟨by decide, rfl, fun a => ?_⟩, ⟨by decide, fun ok => ?_, fun a => ?_⟩⟩
  · simp [step, Proc.alive]
  · simp [step, Proc.alive]
  · simp [step, Proc.alive]

/-! ## Theorems: the state store -/

/-- C6: for every valid address (4 or 16 bytes, IPv4-mapped ones included),
when the write succeeds `saveIP` leaves `ip.String()` and a newline in the
cache file, and `getSavedIP` on the same path then returns, without error, an
address equal to `ip` under address equality. -/
theorem save_load_round_trip (w : World) (c : Config) (ip : IP) (st : Sys) (hv : IPValid ip)
    (hw : w.writeFault c.CurrentIPFile = none) :
    (saveIP w c ip st).1 = none ∧
    (saveIP w c ip st).2.fs c.CurrentIPFile = .content (IP.String ip ++ "\n") ∧
    ∃ r, getSavedIP (saveIP w c ip st).2 c.CurrentIPFile = .ok r ∧ IP.Equal r ip = true := by
  have hsave : saveIP w c ip st =
      (none, ⟨fun p => if p = c.CurrentIPFile then .content (IP.String ip ++ "\n") else st.fs p,
        st.trace ++ [Effect.write c.CurrentIPFile (IP.String ip ++ "\n") 0o600]⟩) := by
    simp only [saveIP, writeFile, hw]
  rw [hsave]
  refine ⟨rfl, by simp, ParseIP (IP.String ip), ?_, equal_parseIP_string ip hv.1 hv.2⟩
  simp [getSavedIP, readFile, trimSpace_string_newline]

/-- C6 on the IPv6 address `2001:db8::1`. -/
theorem save_load_round_trip_witness :
    ∃ r, getSavedIP
        (saveIP (scenarioWorld "" "") scenarioConfig
          [0x20, 0x01, 0x0d, 0xb8, 0, 0, 0, 0, 0, 0, 0, 0, 0, 0, 0, 1] ⟨scenarioFS, []⟩).2
        scenarioConfig.CurrentIPFile = .ok r ∧
      IP.Equal r [0x20, 0x01, 0x0d, 0xb8, 0, 0, 0, 0, 0, 0, 0, 0, 0, 0, 0, 1] = true :=
  (save_load_round_trip (scenarioWorld "" "") scenarioConfig
    [0x20, 0x01, 0x0d, 0xb8, 0, 0, 0, 0, 0, 0, 0, 0, 0, 0, 0, 1] ⟨scenarioFS, []⟩
    ⟨by decide, by decide⟩ rfl).2.2

/-- A successful cycle leaves a cache that reads back as the address the
resolver returned in that cycle. -/
theorem run_success_cache (w : World) (c : Config) (st : Sys) (ipBody : String)
    (hip : w.httpGet ipURL = .body ipBody) (hok : (run w c st).1 = none) :
    ∃ savedIP, getSavedIP (run w c st).2 c.CurrentIPFile = .ok savedIP ∧
      IP.Equal (ParseIP (TrimSpace ipBody)) savedIP = true := by
  cases hsaved : getSavedIP st c.CurrentIPFile with
  | error err =>
    have h2 : getSavedIP ⟨st.fs, st.trace ++ [Effect.get ipURL]⟩ c.CurrentIPFile = .error err :=
      (getSavedIP_congr st ⟨st.fs, _⟩ _ rfl).trans hsaved
    simp [run, getPublicIP, httpGet, hip, h2] at hok
  | ok savedIP =>
    cases heq : IP.Equal (ParseIP (TrimSpace ipBody)) savedIP with
    | true =>
      rw [run_equal w c st ipBody savedIP hip hsaved heq]
      exact ⟨savedIP, (getSavedIP_congr st ⟨st.fs, _⟩ _ rfl).trans hsaved, heq⟩
    | false =>
      have h2 : getSavedIP ⟨st.fs, st.trace ++ [Effect.get ipURL]⟩ c.CurrentIPFile =
          .ok savedIP := (getSavedIP_congr st ⟨st.fs, _⟩ _ rfl).trans hsaved
      cases hq : w.httpGet (updateQuery c (ParseIP (TrimSpace ipBody))) with
      | getFailed err =>
        simp [run, getPublicIP, httpGet, hip, h2, heq, updateDDNS, hq] at hok
      | readFailed err =>
        simp [run, getPublicIP, httpGet, hip, h2, heq, updateDDNS, hq] at hok
      | body b =>
        rw [run_differ w c st ipBody b savedIP hip hsaved heq hq] at hok ⊢
        by_cases hb : b = "success"
        · simp only [hb, if_true, saveIP, writeFile] at hok ⊢
          cases hw : w.writeFault c.CurrentIPFile with
          | some p =>
            rw [hw] at hok
            simp at hok
          | none =>
            simp only [hw]
            refine ⟨ParseIP (TrimSpace ipBody), ?_, equal_self _⟩
            simp [getSavedIP, readFile, trimSpace_string_newline, parseIP_string_parseIP]
        · simp [hb] at hok

/-- C2: when the resolved address is equal (under address equality) to the
cached one, `run` returns success having issued the resolver request only: no
update request, no write, the file system untouched.  Hence after a cycle that
succeeded, a second cycle in which the resolver returns an equal address makes
no update request and no write. -/
theorem run_idempotent (w : World) (c : Config) (st : Sys) (ipBody : String)
    (hip : w.httpGet ipURL = .body ipBody) :
    (∀ savedIP, getSavedIP st c.CurrentIPFile = .ok savedIP →
      IP.Equal (ParseIP (TrimSpace ipBody)) savedIP = true →
      run w c st = (none, ⟨st.fs, st.trace ++ [Effect.get ipURL]⟩)) ∧
    ((run w c st).1 = none →
      ∀ (w2 : World) (ipBody2 : String), w2.httpGet ipURL = .body ipBody2 →
        IP.Equal (ParseIP (TrimSpace ipBody2)) (ParseIP (TrimSpace ipBody)) = true →
        run w2 c (run w c st).2 =
          (none, ⟨(run w c st).2.fs, (run w c st).2.trace ++ [Effect.get ipURL]⟩)) := by
  refine ⟨fun savedIP hsaved heq => run_equal w c st ipBody savedIP hip hsaved heq, ?_⟩
  intro hok w2 ipBody2 hip2 hsame
  obtain ⟨savedIP, hsaved, heq⟩ := run_success_cache w c st ipBody hip hok
  have hsame2 := (equal_parseIP_iff _ _).mp hsame
  exact run_equal w2 c _ ipBody2 savedIP hip2 hsaved (by rw [hsame2]; exact heq)

/-- C2 on the scenario "steady state", twice: cache `203.0.113.5`, resolver
`203.0.113.5` in both cycles. -/
theorem run_idempotent_witness :
    run (scenarioWorld "203.0.113.5" "unused") scenarioConfig ⟨scenarioFS, []⟩ =
      (none, ⟨scenarioFS, [] ++ [Effect.get ipURL]⟩) ∧
    run (scenarioWorld "203.0.113.5" "unused") scenarioConfig
        (run (scenarioWorld "203.0.113.5" "unused") scenarioConfig ⟨scenarioFS, []⟩).2 =
      (none, ⟨(run (scenarioWorld "203.0.113.5" "unused") scenarioConfig ⟨scenarioFS, []⟩).2.fs,
        (run (scenarioWorld "203.0.113.5" "unused") scenarioConfig ⟨scenarioFS, []⟩).2.trace ++
          [Effect.get ipURL]⟩) :=
  have h := run_idempotent (scenarioWorld "203.0.113.5" "unused") scenarioConfig
    ⟨scenarioFS, []⟩ "203.0.113.5" (by decide)
  have h1 := h.1 (ParseIP (TrimSpace "203.0.113.5\n")) (by rfl) (by decide)
  ⟨h1, h.2 (by rw [h1]) (scenarioWorld "203.0.113.5" "unused") "203.0.113.5" (by decide)
    (by decide)⟩

end Updater
